import Mathlib

/-!
The routes, the router and the request context of go-server.

A shallow embedding of `route.go` (type `Route`, `DefaultRoute`,
`Route.BindHandler`, `Route.InvokeHandler`, `Route.Match`), of the router that
owns the routes and of the request context that a handler is called with.

* A Go `map[string]V` is an association list with one entry per key; a map
  value that may be `nil` is an `Option` of it.
* A Go `func` value that may be `nil` is an `Option H`, for a type `H` of
  function values.
* A panic is the `Except.error` of its message.
* `regexp.Regexp` belongs to the Go standard library: it is the record of the
  three methods the code calls, with the two facts about them that the library
  guarantees.
-/

namespace GoServer

/-! ## Go maps -/

/-- A Go `map[string]V` that is not nil: one entry per key. -/
abbrev GoMap (V : Type) := List (String × V)

namespace GoMap

/-- The entry stored under `k`, when there is one. -/
def get? {V : Type} (m : GoMap V) (k : String) : Option V :=
  List.lookup k m

/-- Assignment `m[k] = v`: the entry of `k` is replaced, or a new one is added. -/
def set {V : Type} : GoMap V → String → V → GoMap V
  | [], k, v => [(k, v)]
  | (k', v') :: rest, k, v =>
    if k' = k then (k, v) :: rest else (k', v') :: set rest k v

/-- The keys of the map. -/
def keys {V : Type} (m : GoMap V) : List String :=
  m.map Prod.fst

end GoMap

/-! ## The regexp library, as the code uses it -/

/-- A compiled `*regexp.Regexp`: `source` is `String()`, `subexpNames` is
`SubexpNames()` and `findStringSubmatch` is `FindStringSubmatch`, a nil slice
being the empty list. The library makes `SubexpNames()[0]` the empty string and
returns either nil or one text per subexpression, the whole match first. -/
structure Regexp where
  source : String
  subexpNames : List String
  findStringSubmatch : String → List String
  names_head : subexpNames.head? = some ""
  submatch_length : ∀ s, findStringSubmatch s = [] ∨
    (findStringSubmatch s).length = subexpNames.length

/-- The function `regexp.MustCompile` of the library: the compiled pattern or
the panic; `String()` of a compiled pattern is the text it was compiled from. -/
structure RegexpLib where
  MustCompile : String → Except String Regexp
  source_eq : ∀ p re, MustCompile p = .ok re → re.source = p

/-! ## route.go -/

/-- A value of `HandleContextFunc`: `none` is the nil func. -/
abbrev HandleContextFunc (H : Type) := Option H

/-- The struct `Route`, as `DefaultRoute` creates it: a compiled pattern and a
non-nil map of handlers. -/
structure Route (H : Type) where
  regex : Regexp
  handlers : GoMap (HandleContextFunc H)

/-- The panic of `BindHandler` on a nil handler. -/
def nilHandlerPanic : String := "Request handler must not be nil."

/-- The panic of `BindHandler` on a method that is bound already. -/
def duplicatePanic : String :=
  "This HTTP request method had been associated with another handler."

namespace Route

variable {H : Type}

/-- The expression `r.handlers[method]`: the nil func when the key is absent. -/
def handler (r : Route H) (method : String) : HandleContextFunc H :=
  (r.handlers.get? method).getD none

/-- The function `DefaultRoute`, given what `regexp.MustCompile` does on the
pattern: the panic of `MustCompile` is passed on. -/
def DefaultRoute (lib : RegexpLib) (patternURL : String) :
    Except String (Route H) :=
  match lib.MustCompile patternURL with
  | .ok re => .ok { regex := re, handlers := [] }
  | .error e => .error e

/-- The method `BindHandler`: the route after the call, or the panic. -/
def BindHandler (r : Route H) (method : String) (h : HandleContextFunc H) :
    Except String (Route H) :=
  if h.isNone then
    .error nilHandlerPanic
  else if (r.handler method).isSome then
    .error duplicatePanic
  else
    .ok { r with handlers := r.handlers.set method h }

/-- The loop of `Match` over `names`, from index `i` on: a subexpression with a
name stores its text under the name. -/
def fillParams (ms : List String) :
    List String → Nat → GoMap String → GoMap String
  | [], _, params => params
  | name :: rest, i, params =>
    if name.length > 0 then
      fillParams ms rest (i + 1) (params.set name (ms.getD i ""))
    else
      fillParams ms rest (i + 1) params

/-- The method `Match`: the flag and the path parameters, `none` being the nil
map. -/
def Match (r : Route H) (method pathURL : String) :
    Bool × Option (GoMap String) :=
  let ms := r.regex.findStringSubmatch pathURL
  if ms.length > 0 ∧ ms.head? = some pathURL then
    if (r.handler method).isSome then
      let names := r.regex.subexpNames
      let params : Option (GoMap String) :=
        if names.length > 1 then some (fillParams ms names 0 []) else none
      (true, params)
    else
      (false, none)
  else
    (false, none)

end Route

/-! ## The router -/

/-- Modelled from the spec: `router.go` is not among the sources. The struct
`Router` is the sequence of routes in registration order and the stack of the
templates of the groups that are open. -/
structure Router (H : Type) where
  routes : List (Route H)
  groups : List String

/-- Modelled from the spec: the text of a placeholder `{name}` in a compiled
pattern, a named group of one or more characters other than `/`, `#`, `?`. -/
def placeholderGroup (name : List Char) : List Char :=
  "(?P<".toList ++ name ++ ">[^/#?]+)".toList

/-- Modelled from the spec: the scan of a template. The second argument holds
the characters read since a `{` that is not closed yet; a `}` closes them into
a named group, every other character is copied. -/
def expandPlaceholders : List Char → Option (List Char) → List Char
  | [], none => []
  | [], some name => '{' :: name
  | c :: rest, none =>
    if c = '{' then expandPlaceholders rest (some [])
    else c :: expandPlaceholders rest none
  | c :: rest, some name =>
    if c = '}' then placeholderGroup name ++ expandPlaceholders rest none
    else expandPlaceholders rest (some (name ++ [c]))

/-- Modelled from the spec: the pattern of a route, from the open groups and
the template: anchored at both ends, with an optional final `/`. -/
def routePattern (groups : List String) (template : String) : String :=
  "^" ++ String.mk (expandPlaceholders (String.join groups ++ template).toList none)
    ++ "/?$"

namespace Router

variable {H : Type}

/-- Modelled from the spec: the search of `BindRoute` for a route with the
same pattern source; the first such route gets the handler. `none` when there
is no such route. -/
def bindExisting : List (Route H) → String → String → HandleContextFunc H →
    Option (Except String (List (Route H)))
  | [], _, _, _ => none
  | route :: rest, source, method, h =>
    if route.regex.source = source then
      match route.BindHandler method h with
      | .ok route' => some (.ok (route' :: rest))
      | .error e => some (.error e)
    else
      match bindExisting rest source method h with
      | some (.ok rest') => some (.ok (route :: rest'))
      | some (.error e) => some (.error e)
      | none => none

/-- Modelled from the spec: the method `BindRoute`. The pattern of the
fully-qualified template is compiled; a route with the same pattern source gets
the handler, otherwise a new route is created, gets the handler and is
appended. -/
def BindRoute (lib : RegexpLib) (r : Router H) (method template : String)
    (h : HandleContextFunc H) : Except String (Router H) :=
  match Route.DefaultRoute lib (routePattern r.groups template) with
  | .error e => .error e
  | .ok (newRoute : Route H) =>
    match bindExisting r.routes newRoute.regex.source method h with
    | some (.ok routes') => .ok { r with routes := routes' }
    | some (.error e) => .error e
    | none =>
      match newRoute.BindHandler method h with
      | .ok route' => .ok { r with routes := r.routes ++ [route'] }
      | .error e => .error e

/-- Modelled from the spec: the method `GroupRoute`. The template is pushed,
the body runs, the template is popped. -/
def GroupRoute (r : Router H) (urlGroup : String)
    (body : Router H → Except String (Router H)) : Except String (Router H) :=
  match body { r with groups := r.groups ++ [urlGroup] } with
  | .ok r' => .ok { r' with groups := r'.groups.dropLast }
  | .error e => .error e

/-- Modelled from the spec: the scan of `MatchRoute` over the routes, in
registration order. -/
def matchLoop : List (Route H) → String → String →
    Option (Route H) × Option (GoMap String)
  | [], _, _ => (none, none)
  | route :: rest, method, path =>
    if (route.Match method path).1 then (some route, (route.Match method path).2)
    else matchLoop rest method path

/-- Modelled from the spec: the method `MatchRoute`: the first route that
matches with its path parameters, or `(nil, nil)`. -/
def MatchRoute (r : Router H) (method path : String) :
    Option (Route H) × Option (GoMap String) :=
  matchLoop r.routes method path

end Router

/-- A registration script: the `BindRoute` and `GroupRoute` calls that set a
router up, in the order they are made. -/
inductive Script (H : Type) where
  | done : Script H
  | bind (method template : String) (h : HandleContextFunc H) (next : Script H) : Script H
  | group (urlGroup : String) (body next : Script H) : Script H

/-- The run of a registration script on a router: the first panic stops it. -/
def Script.run {H : Type} (lib : RegexpLib) : Script H → Router H → Except String (Router H)
  | .done, r => .ok r
  | .bind method template h next, r =>
    match r.BindRoute lib method template h with
    | .ok r' => next.run lib r'
    | .error e => .error e
  | .group urlGroup body next, r =>
    match r.GroupRoute urlGroup (body.run lib) with
    | .ok r' => next.run lib r'
    | .error e => .error e

/-! ## The patterns of the tests

`router_test.go` registers the group `/user/profile(.htm[l]?)?` and the
templates `""` and `/{profileID}`. The regexps below say, by hand, what the
library computes for these patterns. -/

/-- The text without its final `/`, when it ends with one. -/
def dropSlash (cs : List Char) : List Char :=
  if cs.getLast? = some '/' then cs.dropLast else cs

/-- A character that `[^/#?]` accepts. -/
def segmentChar (c : Char) : Bool :=
  c != '/' && c != '#' && c != '?'

/-- A text that `[^/#?]+` accepts as a whole. -/
def isSegment (cs : List Char) : Bool :=
  !cs.isEmpty && cs.all segmentChar

/-- The regexp `^L/?$` of a text `L` without regexp operators: it matches `L`
and `L/`, and has no subexpression. -/
def literalRegexp (lit : String) : Regexp where
  source := "^" ++ lit ++ "/?$"
  subexpNames := [""]
  findStringSubmatch p := if p = lit ∨ p = lit ++ "/" then [p] else []
  names_head := rfl
  submatch_length := by intro s; beta_reduce; split <;> simp

/-- What `FindStringSubmatch` gives for `^/user/profile(.htm[l]?)?/?$`: after
`/user/profile` comes nothing, or one character other than a newline followed
by `htm` or `html`; then an optional `/`. The group that took no part in the
match has the empty text. -/
def profileHtmFind (p : String) : List String :=
  if "/user/profile".toList.isPrefixOf p.toList then
    match dropSlash (p.toList.drop 13) with
    | [] => [p, ""]
    | c :: rest =>
      if c ≠ '\n' ∧ (rest = "htm".toList ∨ rest = "html".toList) then
        [p, String.mk (c :: rest)]
      else []
  else []

/-- The regexp `^/user/profile(.htm[l]?)?/?$`, with one group without a name. -/
def profileHtmRegexp : Regexp where
  source := "^/user/profile(.htm[l]?)?/?$"
  subexpNames := ["", ""]
  findStringSubmatch := profileHtmFind
  names_head := rfl
  submatch_length := by
    intro s; unfold profileHtmFind; split
    · split
      · simp
      · split <;> simp
    · simp

/-- What `FindStringSubmatch` gives for
`^/user/profile/(?P<profileID>[^/#?]+)/?$`: after `/user/profile/` comes one
segment, then an optional `/`. -/
def profileIDFind (p : String) : List String :=
  if "/user/profile/".toList.isPrefixOf p.toList then
    if isSegment (dropSlash (p.toList.drop 14)) then
      [p, String.mk (dropSlash (p.toList.drop 14))]
    else []
  else []

/-- The regexp `^/user/profile/(?P<profileID>[^/#?]+)/?$`. -/
def profileIDRegexp : Regexp where
  source := "^/user/profile/(?P<profileID>[^/#?]+)/?$"
  subexpNames := ["", "profileID"]
  findStringSubmatch := profileIDFind
  names_head := rfl
  submatch_length := by
    intro s; unfold profileIDFind; split
    · split <;> simp
    · simp

/-- What `FindStringSubmatch` gives for `^/(?P<a>[^/#?]+)/(?P<a>[^/#?]+)/?$`:
a `/`, a segment, a `/`, a segment, then an optional `/`. -/
def pairFind (p : String) : List String :=
  match p.toList with
  | [] => []
  | c :: rest =>
    match rest.dropWhile (fun x => x != '/') with
    | [] => []
    | _ :: more =>
      if c = '/' ∧ isSegment (rest.takeWhile (fun x => x != '/')) ∧
          isSegment (dropSlash more) then
        [p, String.mk (rest.takeWhile (fun x => x != '/')), String.mk (dropSlash more)]
      else []

/-- The regexp `^/(?P<a>[^/#?]+)/(?P<a>[^/#?]+)/?$` of the template `/{a}/{a}`:
the library accepts two groups with one name. -/
def pairRegexp : Regexp where
  source := "^/(?P<a>[^/#?]+)/(?P<a>[^/#?]+)/?$"
  subexpNames := ["", "a", "a"]
  findStringSubmatch := pairFind
  names_head := rfl
  submatch_length := by
    intro s; unfold pairFind; split
    · simp
    · split
      · simp
      · split <;> simp

/-- The library on the patterns above; a pattern `^L/?$` whose `L` has no
regexp operator is the literal regexp of `L`, and every other pattern is taken
to be refused. -/
def testLib : RegexpLib where
  MustCompile p :=
    if p = profileHtmRegexp.source then .ok profileHtmRegexp
    else if p = profileIDRegexp.source then .ok profileIDRegexp
    else if p = pairRegexp.source then .ok pairRegexp
    else if p = (literalRegexp "/user/profile").source then .ok (literalRegexp "/user/profile")
    else if p = (literalRegexp "/sample").source then .ok (literalRegexp "/sample")
    else .error ("regexp: Compile(" ++ p ++ ")")
  source_eq := by
    intro p re h
    beta_reduce at h
    split at h
    · cases h; simp [*]
    · split at h
      · cases h; simp [*]
      · split at h
        · cases h; simp [*]
        · split at h
          · cases h; simp [*]
          · split at h
            · cases h; simp [*]
            · cases h

/-! ## What the claims speak of -/

/-- The pattern finds a match in the path, and the matched text is the whole
path. -/
def Regexp.FullMatch (re : Regexp) (path : String) : Prop :=
  ∃ groups, re.findStringSubmatch path = path :: groups

/-- The route of the tests for the group `/user/profile(.htm[l]?)?` and the
template `""`, with a handler for `get` and for `post`. -/
def profileHtmRoute : Route Nat :=
  { regex := profileHtmRegexp, handlers := [("get", some 1), ("post", some 2)] }

/-- The route of the tests for `/user/profile/{profileID}`, with a handler for
`get` only. -/
def profileIDRoute : Route Nat :=
  { regex := profileIDRegexp, handlers := [("get", some 3)] }

/-- The route of the template `/{a}/{a}`, with a handler for `get`. -/
def pairRoute : Route Nat :=
  { regex := pairRegexp, handlers := [("get", some 1)] }

/-- A sequence of `BindHandler` calls on one route, in order; a call that
panics leaves the route as it was. -/
def Route.bindAll {H : Type} (r : Route H) :
    List (String × HandleContextFunc H) → Route H
  | [] => r
  | (method, h) :: rest =>
    match r.BindHandler method h with
    | .ok r' => bindAll r' rest
    | .error _ => bindAll r rest

/-- The router before any registration: `new(Router)`. -/
def Router.empty {H : Type} : Router H :=
  { routes := [], groups := [] }

/-- The registration of `Test_GroupRoute`: under the group `/user/profile`,
`get` on `""`, then `get` and `post` on `/{profileID}`. -/
def groupRouteScript : Script Nat :=
  .group "/user/profile"
    (.bind "get" "" (some 1)
      (.bind "get" "/{profileID}" (some 2)
        (.bind "post" "/{profileID}" (some 3) .done)))
    .done

/-- The router that `Test_GroupRoute` expects: two routes, the second with
both methods. -/
def groupRouteRouter : Router Nat :=
  { routes :=
      [{ regex := literalRegexp "/user/profile", handlers := [("get", some 1)] },
       { regex := profileIDRegexp, handlers := [("get", some 2), ("post", some 3)] }],
    groups := [] }

/-- The router of `Test_GroupRoute` inside the group, after its first
`BindRoute`. -/
def profileRouter : Router Nat :=
  { routes := [{ regex := literalRegexp "/user/profile", handlers := [("get", some 1)] }],
    groups := ["/user/profile"] }

/-- The router of `Test_GroupRoute` inside the group, after its second
`BindRoute`. -/
def profileRouter' : Router Nat :=
  { routes :=
      [{ regex := literalRegexp "/user/profile", handlers := [("get", some 1)] },
       { regex := profileIDRegexp, handlers := [("get", some 2)] }],
    groups := ["/user/profile"] }

/-- A router with the one route `/sample`, bound for `post`. -/
def sampleRouter : Router Nat :=
  { routes := [{ regex := literalRegexp "/sample", handlers := [("post", some 0)] }],
    groups := [] }

/-- The method `BindHandler` with the receiver it leaves behind: the route
after the call and the panic, if there was one. Both panics come before the
one assignment of the method. -/
def Route.afterBindHandler {H : Type} (r : Route H) (method : String)
    (h : HandleContextFunc H) : Route H × Option String :=
  if h.isNone then
    (r, some nilHandlerPanic)
  else if (r.handler method).isSome then
    (r, some duplicatePanic)
  else
    ({ r with handlers := r.handlers.set method h }, none)

/-- Modelled from the spec: `request_context.go` is not among the sources. The
struct `RequestContext`, with the fields that the tests and `route.go` read. -/
structure RequestContext where
  Method : String
  Path : String
  Header : GoMap String
  PathParams : Option (GoMap String)
  QueryParams : Option (GoMap String)

/-- The panic of the Go runtime on the call of a nil func. -/
def nilFuncPanic : String :=
  "runtime error: invalid memory address or nil pointer dereference"

/-- The method `InvokeHandler`: the handler of the method of the context is
looked up and called on the context; `R` is what a handler does. -/
def Route.InvokeHandler {R : Type} (r : Route (RequestContext → R))
    (c : RequestContext) : Except String R :=
  match r.handler c.Method with
  | some handler => .ok (handler c)
  | none => .error nilFuncPanic

/-- A request context of the tests: `get` on `/user/profile/1`. -/
def profileContext : RequestContext :=
  { Method := "get", Path := "/user/profile/1", Header := [],
    PathParams := some [("profileID", "1")], QueryParams := none }

/-- The route `/user/profile/{profileID}` with a handler for `get` that answers
with the path parameter `profileID` of the context. -/
def echoRoute : Route (RequestContext → Option String) :=
  { regex := profileIDRegexp,
    handlers := [("get", some (fun c => c.PathParams.bind (fun ps => ps.get? "profileID")))] }

/-- A part of a template: a character other than `{`, or a placeholder
`{name}` whose name has no `}`. -/
inductive Piece where
  | char (c : Char) : Piece
  | placeholder (name : List Char) : Piece

/-- A part of a template is well formed: the character is not `{`, the name
has no `}`. -/
def Piece.WellFormed : Piece → Prop
  | .char c => c ≠ '{'
  | .placeholder name => '}' ∉ name

instance (p : Piece) : Decidable p.WellFormed := by
  cases p <;> unfold Piece.WellFormed <;> infer_instance

/-- The text of the parts, as a template has it. -/
def templateText : List Piece → List Char
  | [] => []
  | .char c :: rest => c :: templateText rest
  | .placeholder name :: rest => '{' :: (name ++ '}' :: templateText rest)

/-- The text of the parts, as a pattern has it: `{name}` has become
`(?P<name>[^/#?]+)` and a character is itself. -/
def patternText : List Piece → List Char
  | [] => []
  | .char c :: rest => c :: patternText rest
  | .placeholder name :: rest =>
    "(?P<".toList ++ name ++ ">[^/#?]+)".toList ++ patternText rest

/-- A `BindRoute` call of a registration, with the templates of the groups
that enclose it, the outermost first. -/
structure Binding (H : Type) where
  groups : List String
  template : String
  method : String
  handler : HandleContextFunc H

/-- The `BindRoute` calls of a registration script that starts with the groups
`groups` open: a call inside a group is under the enclosing groups and this
group, a call after a group is under the enclosing groups alone. -/
def Script.bindings {H : Type} : Script H → List String → List (Binding H)
  | .done, _ => []
  | .bind method template h next, groups =>
    { groups := groups, template := template, method := method, handler := h }
      :: next.bindings groups
  | .group urlGroup body next, groups =>
    body.bindings (groups ++ [urlGroup]) ++ next.bindings groups

/-- The body of a group that holds a group and a `BindRoute` after it. -/
def nestedBody : Script Nat :=
  .group "/profile"
    (.bind "get" "/{profileID}" (some 2) .done)
    (.bind "get" "/profile" (some 1) .done)

/-- The router after `GroupRoute("/user", nestedBody)` on the empty router. -/
def nestedRouter : Router Nat :=
  { routes :=
      [{ regex := profileIDRegexp, handlers := [("get", some 2)] },
       { regex := literalRegexp "/user/profile", handlers := [("get", some 1)] }],
    groups := [] }

/-! ## The request context -/

/-- The parsers of the Go library that `CreateContext` relies on: the entries
of a query string or of a URL-encoded body in the order they are written, the
fields of a multipart body that are not files, and the canonical form of a
path. -/
structure FormLib where
  parseQuery : String → List (String × String)
  parseMultipart : List (String × String) → String → List (String × String)
  cleanPath : String → String

/-- Modelled from the spec: the raw request that `CreateContext` reads. The
headers are in the order they are processed; `body` is `none` when the request
has no body. -/
structure Request where
  method : String
  path : String
  header : List (String × String)
  rawQuery : String
  body : Option String

/-- The text in lower case. -/
def lower (s : String) : String :=
  String.mk (s.toList.map Char.toLower)

/-- Modelled from the spec: the header map of a context. Every name is in
lower case and the value processed last wins; the tests expect the values in
lower case too. -/
def headerMap : List (String × String) → GoMap String → GoMap String
  | [], m => m
  | (name, value) :: rest, m => headerMap rest (m.set (lower name) (lower value))

/-- Modelled from the spec: the entries that are written into the unified
parameter map, in order, a later entry of a key replacing an earlier one. A map
that is nil stays nil as long as there is no entry to write. -/
def mergeEntries : Option (GoMap String) → List (String × String) →
    Option (GoMap String)
  | m, [] => m
  | none, (k, v) :: rest => mergeEntries (some (GoMap.set [] k v)) rest
  | some m, (k, v) :: rest => mergeEntries (some (m.set k v)) rest

/-- Modelled from the spec: the entries that the body adds to the unified
parameter map, by content type: the fields of a URL-encoded body, the fields of
a multipart body that are not files, nothing for any other content type and
nothing without a body. -/
def bodyEntries (lib : FormLib) (req : Request) (contentType : String) :
    List (String × String) :=
  match req.body with
  | none => []
  | some body =>
    if contentType = "application/x-www-form-urlencoded" then
      lib.parseQuery body
    else if "multipart/form-data; boundary=".toList.isPrefixOf contentType.toList then
      lib.parseMultipart req.header body
    else
      []

/-- Modelled from the spec: the function `CreateContext`. The method is put in
lower case, the path is normalised, the header map is built, the query string
is parsed into the unified parameter map and the body adds its entries to the
same map. The path parameters are set later, from the route that matched. -/
def CreateContext (lib : FormLib) (req : Request) : RequestContext :=
  let header := headerMap req.header []
  let contentType := (header.get? "content-type").getD ""
  let query := mergeEntries none (lib.parseQuery req.rawQuery)
  { Method := lower req.method,
    Path := lib.cleanPath req.path,
    Header := header,
    PathParams := none,
    QueryParams := mergeEntries query (bodyEntries lib req contentType) }

/-- The pieces of a text between the occurrences of a separator. -/
def splitChars (sep : Char) : List Char → List (List Char)
  | [] => [[]]
  | c :: cs =>
    if c = sep then [] :: splitChars sep cs
    else
      match splitChars sep cs with
      | [] => [[c]]
      | w :: ws => (c :: w) :: ws

/-- The entry `key=value` of a query string, cut at the first `=`. -/
def queryEntry (kv : List Char) : String × String :=
  (String.mk (kv.takeWhile (fun c => c != '=')),
    String.mk ((kv.dropWhile (fun c => c != '=')).drop 1))

/-- The parsers on texts without escapes: a query string is cut at `&` and
each entry at its first `=`, an empty entry is skipped; the multipart parser
is not needed by the examples and gives no field. -/
def plainFormLib : FormLib where
  parseQuery s := ((splitChars '&' s.toList).filter (fun kv => !kv.isEmpty)).map queryEntry
  parseMultipart _ _ := []
  cleanPath p := if p = "" then "/" else p

/-- The request of `Test_CreateRequestContext_GetRequest`: a `GET` of the root
without query string and without body. -/
def getRequest : Request :=
  { method := "GET", path := "", rawQuery := "", body := none,
    header := [("User-Agent", "Go-http-client/1.1"), ("Accept-Encoding", "gzip")] }

/-- The request of `Test_CreateRequestContext_GetRequestWithQueryParams`. -/
def getQueryRequest : Request :=
  { getRequest with rawQuery := "userID=1&profileID=2" }

/-- The request of `Test_CreateRequestContext_PostFormRequest`: a form `POST`
without body. -/
def postFormRequest : Request :=
  { method := "POST", path := "", rawQuery := "", body := none,
    header := [("Content-Type", "APPLICATION/X-WWW-FORM-URLENCODED")] }

/-- The request of `Test_CreateRequestContext_PostFormRequestWithData`. -/
def postFormDataRequest : Request :=
  { postFormRequest with body := some "userID=1&profileID=2" }

/-! ## Templates without regexp operators -/

/-- A character that has a meaning of its own in a regexp. -/
def isOperator (c : Char) : Bool :=
  "\\.+*?()|[]\x7b\x7d^$".toList.contains c

/-- What the library computes for the patterns `^L/?$` in which no character
of `L` is an operator: the pattern compiles, has no subexpression, and finds a
match exactly in the texts `L` and `L/`, the match being the whole text. -/
def RegexpLib.LiteralPatterns (lib : RegexpLib) : Prop :=
  ∀ lit : String, (∀ c ∈ lit.toList, isOperator c = false) →
    ∃ re, lib.MustCompile ("^" ++ lit ++ "/?$") = .ok re ∧ re.subexpNames = [""] ∧
      ∀ p, re.findStringSubmatch p = if p = lit ∨ p = lit ++ "/" then [p] else []

/-- The text of a pattern between its first character and its last three. -/
def literalOf (p : String) : String :=
  String.mk ((p.toList.drop 1).take (p.toList.length - 4))

/-- The library on the patterns `^L/?$` without operator in `L`; every other
pattern is taken to be refused. -/
def literalLib : RegexpLib where
  MustCompile p :=
    if (literalOf p).toList.all (fun c => !isOperator c) = true ∧
        p = "^" ++ literalOf p ++ "/?$" then
      .ok (literalRegexp (literalOf p))
    else .error ("regexp: Compile(" ++ p ++ ")")
  source_eq := by
    intro p re h
    beta_reduce at h
    split at h
    · rename_i hc
      cases h
      exact hc.2.symm
    · cases h

/-- What the library guarantees for a pattern whose groups are all of the form
`(?P<name>[^/#?]+)` and not under an operator: in every match, the text of every
group is one or more characters other than `/`, `#`, `?`. -/
def Regexp.SegmentGroups (re : Regexp) : Prop :=
  ∀ (p : String) (i : Nat) (text : String), 0 < i →
    (re.findStringSubmatch p)[i]? = some text → isSegment text.toList = true

/-! ## Templates of characters and placeholders -/

/-- A character of the name of a capture group: the library accepts letters,
digits and `_`. -/
def nameChar (c : Char) : Bool :=
  c.isAlphanum || c == '_'

/-- A part of a template that the library reads as written: a character that
is no regexp operator, or a placeholder whose name is a name of a capture
group. -/
def Piece.valid : Piece → Bool
  | .char c => !isOperator c
  | .placeholder name => !name.isEmpty && name.all nameChar

/-- The names of the placeholders of the parts, in order. -/
def groupNames : List Piece → List String
  | [] => []
  | .char _ :: rest => groupNames rest
  | .placeholder name :: rest => String.mk name :: groupNames rest

/-- What the library computes for the patterns `^P/?$` in which `P` is made of
characters that are no operators and of groups `(?P<name>[^/#?]+)`: the pattern
compiles, its subexpressions are these groups, and in every match the whole
match is the whole text and the text of every group is one or more characters
other than `/`, `#`, `?`. -/
def RegexpLib.PlaceholderPatterns (lib : RegexpLib) : Prop :=
  ∀ pieces : List Piece, (∀ p ∈ pieces, p.valid = true) →
    ∃ re, lib.MustCompile ("^" ++ String.mk (patternText pieces) ++ "/?$") = .ok re ∧
      re.subexpNames = "" :: groupNames pieces ∧
      ∀ p, re.findStringSubmatch p = [] ∨
        ∃ texts, re.findStringSubmatch p = p :: texts ∧
          ∀ text ∈ texts, isSegment text.toList = true

/-- The match of a group `[^/#?]+` that is followed by the rest of a pattern:
the longest text first, then shorter ones, down to one character; `cont` is the
match of the rest of the pattern. -/
def trySegment (cont : List Char → Option (List String)) (input : List Char) :
    Nat → Option (List String)
  | 0 => none
  | k + 1 =>
    match cont (input.drop (k + 1)) with
    | some texts => some (String.mk (input.take (k + 1)) :: texts)
    | none => trySegment cont input k

/-- The match of the parts of a pattern, then `/?$`, on a text: the texts of
the groups, or `none` when the text does not match. -/
def matchPieces : List Piece → List Char → Option (List String)
  | [], input => if input = [] ∨ input = ['/'] then some [] else none
  | .char c :: rest, input =>
    match input with
    | [] => none
    | d :: ds => if d = c then matchPieces rest ds else none
  | .placeholder _ :: rest, input =>
    trySegment (matchPieces rest) input (input.takeWhile segmentChar).length

/-- What `FindStringSubmatch` gives for the pattern of the parts: the whole
text and the texts of the groups, or nil. -/
def pieceFind (pieces : List Piece) (p : String) : List String :=
  match matchPieces pieces p.toList with
  | some texts => p :: texts
  | none => []

/-- The parts of the text of a pattern, read back: a `(` must open a group
`(?P<name>[^/#?]+)`, any other operator is refused. The number bounds the parts
that are read. -/
def parsePieces : Nat → List Char → Option (List Piece)
  | 0, cs => if cs = [] then some [] else none
  | _ + 1, [] => some []
  | n + 1, c :: rest =>
    if c = '(' then
      if "?P<".toList.isPrefixOf rest ∧
          !((rest.drop 3).takeWhile nameChar).isEmpty ∧
          ">[^/#?]+)".toList.isPrefixOf ((rest.drop 3).dropWhile nameChar) then
        match parsePieces n (((rest.drop 3).dropWhile nameChar).drop 9) with
        | some pieces => some (.placeholder ((rest.drop 3).takeWhile nameChar) :: pieces)
        | none => none
      else none
    else if isOperator c then none
    else
      match parsePieces n rest with
      | some pieces => some (.char c :: pieces)
      | none => none

/-- The regexp of the parts of a pattern, as the library computes it: one
subexpression per placeholder, under its name. -/
def pieceRegexp (source : String) (pieces : List Piece) : Regexp where
  source := source
  subexpNames := "" :: groupNames pieces
  findStringSubmatch := pieceFind pieces
  names_head := rfl
  submatch_length := by
    have hseg : ∀ (cont : List Char → Option (List String)) (n : Nat),
        (∀ input texts, cont input = some texts → texts.length = n) →
        ∀ (k : Nat) (input : List Char) (texts : List String),
          trySegment cont input k = some texts → texts.length = n + 1 := by
      intro cont n hcont k
      induction k with
      | zero => intro input texts h; simp [trySegment] at h
      | succ k ih =>
        intro input texts h
        simp only [trySegment] at h
        cases hc : cont (input.drop (k + 1)) with
        | none => rw [hc] at h; exact ih input texts h
        | some rest =>
          rw [hc] at h
          cases h
          simp [hcont _ _ hc]
    have key : ∀ (ps : List Piece) (input : List Char) (texts : List String),
        matchPieces ps input = some texts → texts.length = (groupNames ps).length := by
      intro ps
      induction ps with
      | nil =>
        intro input texts h
        simp only [matchPieces] at h
        split at h
        · cases h; rfl
        · cases h
      | cons p rest ih =>
        intro input texts h
        cases p with
        | char c =>
          cases input with
          | nil => simp [matchPieces] at h
          | cons d ds =>
            simp only [matchPieces] at h
            split at h
            · exact ih ds texts h
            · cases h
        | placeholder name =>
          simp only [matchPieces] at h
          simpa [groupNames] using hseg (matchPieces rest) _ ih _ input texts h
    intro s
    unfold pieceFind
    cases hm : matchPieces pieces s.toList with
    | none => exact Or.inl rfl
    | some texts => exact Or.inr (by simp [key pieces _ texts hm])

/-- The library on the patterns `^P/?$` whose `P` is made of characters that
are no operators and of groups `(?P<name>[^/#?]+)`; every other pattern is
taken to be refused. -/
def placeholderLib : RegexpLib where
  MustCompile p :=
    if p = "^" ++ literalOf p ++ "/?$" then
      match parsePieces (literalOf p).toList.length (literalOf p).toList with
      | some pieces => .ok (pieceRegexp p pieces)
      | none => .error ("regexp: Compile(" ++ p ++ ")")
    else .error ("regexp: Compile(" ++ p ++ ")")
  source_eq := by
    intro p re h
    beta_reduce at h
    split at h
    · split at h
      · cases h; rfl
      · cases h
    · cases h

/-! ## Go maps: lookup after assignment -/

namespace GoMap

theorem get?_set_self {V : Type} (m : GoMap V) (k : String) (v : V) :
    (m.set k v).get? k = some v := by
  induction m with
  | nil => simp [set, get?, List.lookup]
  | cons e rest ih =>
    obtain ⟨k', v'⟩ := e
    by_cases hk : k' = k
    · simp [set, get?, List.lookup, hk]
    · have hk' : (k == k') = false := by simpa using fun h => hk h.symm
      simp only [set, hk, if_false, get?, List.lookup, hk']
      exact ih

theorem get?_set_other {V : Type} (m : GoMap V) (k j : String) (v : V) (hj : j ≠ k) :
    (m.set k v).get? j = m.get? j := by
  induction m with
  | nil =>
    have : (j == k) = false := by simpa using hj
    simp [set, get?, List.lookup, this]
  | cons e rest ih =>
    obtain ⟨k', v'⟩ := e
    by_cases hk : k' = k
    · subst hk
      have : (j == k') = false := by simpa using hj
      simp [set, get?, List.lookup, this]
    · simp only [set, hk, if_false, get?, List.lookup]
      cases hjk : (j == k')
      · exact ih
      · rfl

theorem mem_keys_set {V : Type} (m : GoMap V) (k j : String) (v : V) :
    j ∈ (m.set k v).keys ↔ j = k ∨ j ∈ m.keys := by
  induction m with
  | nil => simp [set, keys]
  | cons e rest ih =>
    obtain ⟨k', v'⟩ := e
    by_cases hk : k' = k
    · subst hk; simp [set, keys]
    · simp only [set, hk, if_false]
      have ih' : j ∈ List.map Prod.fst (set rest k v) ↔ j = k ∨ j ∈ List.map Prod.fst rest := ih
      simp only [keys, List.map_cons, List.mem_cons, ih']
      tauto

theorem keys_set_nodup {V : Type} (m : GoMap V) (k : String) (v : V)
    (h : m.keys.Nodup) : (m.set k v).keys.Nodup := by
  induction m with
  | nil => simp [set, keys]
  | cons e rest ih =>
    obtain ⟨k', v'⟩ := e
    have h' : k' ∉ keys rest ∧ (keys rest).Nodup := by simpa [keys] using h
    by_cases hk : k' = k
    · subst hk
      simpa [set, keys] using h
    · simp only [set, hk, if_false]
      have hnot : k' ∉ keys (set rest k v) := by
        rw [mem_keys_set]
        rintro (h1 | h1)
        · exact hk h1
        · exact h'.1 h1
      have hrec : (keys (set rest k v)).Nodup := ih h'.2
      show (k' :: keys (set rest k v)).Nodup
      exact List.nodup_cons.mpr ⟨hnot, hrec⟩

end GoMap

theorem length_pos_iff (s : String) : s.length > 0 ↔ s ≠ "" := by
  cases s with
  | mk d =>
    cases d with
    | nil => simp [String.length]
    | cons c cs =>
      simp [String.length]
      intro h
      have := congrArg String.data h
      simp at this

/-! ## Route.Match -/

namespace Route

variable {H : Type}

theorem fullMatch_iff (re : Regexp) (path : String) :
    re.FullMatch path ↔
      (re.findStringSubmatch path).length > 0 ∧
        (re.findStringSubmatch path).head? = some path := by
  unfold Regexp.FullMatch
  constructor
  · rintro ⟨g, hg⟩; simp [hg]
  · rintro ⟨_, h⟩
    cases hms : re.findStringSubmatch path with
    | nil => simp [hms] at h
    | cons a g => simp [hms] at h; exact ⟨g, by simp [h]⟩

/-- C1: `Match` returns true exactly when the pattern finds a match whose text
is the whole path and the method has a non-nil handler. -/
theorem match_true_iff (r : Route H) (method path : String) :
    (r.Match method path).1 = true ↔
      r.regex.FullMatch path ∧ r.handler method ≠ none := by
  rw [fullMatch_iff]
  unfold Match
  by_cases hm : (r.regex.findStringSubmatch path).length > 0 ∧
      (r.regex.findStringSubmatch path).head? = some path
  · by_cases hh : (r.handler method).isSome = true
    · have : r.handler method ≠ none := by
        intro h; simp [h] at hh
      simp [hm, hh, this]
    · have : r.handler method = none := by
        cases h : r.handler method with
        | none => rfl
        | some _ => simp [h] at hh
      simp [hm, this]
  · simp only [hm, if_false, false_and]
    simp

theorem match_eq_ite (r : Route H) (method path : String) :
    r.Match method path =
      if ((r.regex.findStringSubmatch path).length > 0 ∧
            (r.regex.findStringSubmatch path).head? = some path) ∧
          (r.handler method).isSome = true then
        (true, if r.regex.subexpNames.length > 1 then
          some (fillParams (r.regex.findStringSubmatch path) r.regex.subexpNames 0 [])
          else none)
      else (false, none) := by
  unfold Match
  by_cases h1 : (r.regex.findStringSubmatch path).length > 0 ∧
      (r.regex.findStringSubmatch path).head? = some path
  · by_cases h2 : (r.handler method).isSome = true
    · rw [if_pos h1, if_pos h2, if_pos ⟨h1, h2⟩]
    · rw [if_pos h1, if_neg h2, if_neg (fun hc => h2 hc.2)]
  · rw [if_neg h1, if_neg (fun hc => h1 hc.1)]

theorem match_eq_of_handler_none (r : Route H) (method path : String)
    (h : r.handler method = none) : r.Match method path = (false, none) := by
  unfold Match
  simp only [h, Option.isSome_none, Bool.false_eq_true, if_false]
  split <;> rfl

theorem match_eq_of_not_fullMatch (r : Route H) (method path : String)
    (h : ¬ r.regex.FullMatch path) : r.Match method path = (false, none) := by
  rw [fullMatch_iff] at h
  unfold Match
  simp only [h, if_false]

/-- C2: with no handler bound for the method, `Match` returns `(false, nil)`,
which is what it returns on every path the pattern does not match, whatever the
path and whatever is bound for other methods. -/
theorem match_unbound_method (r : Route H) (method path : String)
    (h : r.handler method = none) :
    r.Match method path = (false, none) ∧
      ∀ (r' : Route H) (method' path' : String), ¬ r'.regex.FullMatch path' →
        r'.Match method' path' = r.Match method path := by
  refine ⟨match_eq_of_handler_none r method path h, ?_⟩
  intro r' method' path' hno
  rw [match_eq_of_not_fullMatch r' method' path' hno,
    match_eq_of_handler_none r method path h]

/-- The route `/user/profile/{profileID}` has `get` bound and matches
`/user/profile/1`; for `post`, which is not bound, it returns `(false, nil)`. -/
theorem match_unbound_method_witness :
    profileIDRoute.handler "post" = none ∧
      profileIDRoute.regex.FullMatch "/user/profile/1" ∧
      profileIDRoute.handler "get" ≠ none ∧
      profileIDRoute.Match "post" "/user/profile/1" = (false, none) :=
  ⟨by decide, ⟨["1"], by decide⟩, by decide,
    (match_unbound_method profileIDRoute "post" "/user/profile/1" (by decide)).1⟩

/-- C5: when `Match` returns false, the parameter map it returns is nil. -/
theorem match_false_params_nil (r : Route H) (method path : String)
    (h : (r.Match method path).1 = false) : (r.Match method path).2 = none := by
  rw [match_eq_ite] at h ⊢
  split
  · rename_i hc; simp [hc] at h
  · rfl

/-- The route `/user/profile/{profileID}` does not match `/user`: no
captures. -/
theorem match_false_params_nil_witness :
    (profileIDRoute.Match "get" "/user").1 = false ∧
      (profileIDRoute.Match "get" "/user").2 = none :=
  ⟨by decide, match_false_params_nil profileIDRoute "get" "/user" (by decide)⟩

/-! ### The parameter map -/

theorem mem_keys_fillParams (ms names : List String) (i : Nat) (acc : GoMap String)
    (k : String) :
    k ∈ (fillParams ms names i acc).keys ↔ k ∈ acc.keys ∨ (k ∈ names ∧ k ≠ "") := by
  induction names generalizing i acc with
  | nil => simp [fillParams]
  | cons n rest ih =>
    by_cases hn : n.length > 0
    · have hne : n ≠ "" := (length_pos_iff n).mp hn
      simp only [fillParams, hn, if_true, ih, GoMap.mem_keys_set, List.mem_cons]
      constructor
      · rintro ((h | h) | h)
        · exact Or.inr ⟨Or.inl h, h ▸ hne⟩
        · exact Or.inl h
        · exact Or.inr ⟨Or.inr h.1, h.2⟩
      · rintro (h | ⟨h | h, h2⟩)
        · exact Or.inl (Or.inr h)
        · exact Or.inl (Or.inl h)
        · exact Or.inr ⟨h, h2⟩
    · have hne : n = "" := by
        by_contra hc; exact hn ((length_pos_iff n).mpr hc)
      simp only [fillParams, hn, if_false, ih, List.mem_cons]
      constructor
      · rintro (h | h)
        · exact Or.inl h
        · exact Or.inr ⟨Or.inr h.1, h.2⟩
      · rintro (h | ⟨h | h, h2⟩)
        · exact Or.inl h
        · exact absurd (h.trans hne) h2
        · exact Or.inr ⟨h, h2⟩

theorem keys_fillParams_nodup (ms names : List String) (i : Nat) (acc : GoMap String)
    (h : acc.keys.Nodup) : (fillParams ms names i acc).keys.Nodup := by
  induction names generalizing i acc with
  | nil => simpa [fillParams] using h
  | cons n rest ih =>
    by_cases hn : n.length > 0
    · simp only [fillParams, hn, if_true]
      exact ih _ _ (GoMap.keys_set_nodup acc n _ h)
    · simp only [fillParams, hn, if_false]
      exact ih _ _ h

theorem get?_fillParams_of_not_mem (ms names : List String) (i : Nat)
    (acc : GoMap String) (k : String) (hk : k ∉ names) :
    (fillParams ms names i acc).get? k = acc.get? k := by
  induction names generalizing i acc with
  | nil => simp [fillParams]
  | cons n rest ih =>
    have hkn : k ≠ n := fun h => hk (h ▸ List.mem_cons_self _ _)
    have hkr : k ∉ rest := fun h => hk (List.mem_cons_of_mem _ h)
    by_cases hn : n.length > 0
    · simp only [fillParams, hn, if_true]
      rw [ih _ _ hkr, GoMap.get?_set_other _ _ _ _ hkn]
    · simp only [fillParams, hn, if_false]
      exact ih _ _ hkr

theorem get?_fillParams_last (ms names : List String) (s i : Nat)
    (acc : GoMap String) (name : String)
    (hi : names[i]? = some name) (hne : name ≠ "")
    (hlast : ∀ j, i < j → names[j]? ≠ some name) :
    (fillParams ms names s acc).get? name = some (ms.getD (s + i) "") := by
  induction names generalizing s i acc with
  | nil => simp at hi
  | cons n rest ih =>
    cases i with
    | zero =>
      have hn : n = name := by simpa using hi
      subst hn
      have hpos : n.length > 0 := (length_pos_iff n).mpr hne
      have hnot : n ∉ rest := by
        intro hmem
        obtain ⟨j, hj⟩ := List.getElem?_of_mem hmem
        exact hlast (j + 1) (Nat.succ_pos j) (by simpa using hj)
      simp only [fillParams, hpos, if_true]
      rw [get?_fillParams_of_not_mem _ _ _ _ _ hnot, GoMap.get?_set_self]
      simp
    | succ i' =>
      have hi' : rest[i']? = some name := by simpa using hi
      have hlast' : ∀ j, i' < j → rest[j]? ≠ some name := by
        intro j hj
        have := hlast (j + 1) (Nat.succ_lt_succ hj)
        simpa using this
      have hidx : s + (i' + 1) = s + 1 + i' := by omega
      by_cases hn : n.length > 0
      · simp only [fillParams, hn, if_true]
        rw [ih (s + 1) i' _ hi' hlast', hidx]
      · simp only [fillParams, hn, if_false]
        rw [ih (s + 1) i' _ hi' hlast', hidx]

/-- C3, as the code has it: on a pattern with a named placeholder a successful
`Match` returns a map whose keys are exactly the placeholder names, one entry
per name, and a name maps to the text of the last capture group declared under
it: for pairwise distinct names that is one captured value per placeholder. -/
theorem match_params_last_group (r : Route H) (method path : String)
    (hnamed : ∃ n ∈ r.regex.subexpNames, n ≠ "")
    (hok : (r.Match method path).1 = true) :
    ∃ m, (r.Match method path).2 = some m ∧
      (∀ k, k ∈ m.keys ↔ k ∈ r.regex.subexpNames ∧ k ≠ "") ∧
      m.keys.Nodup ∧
      ∀ (i : Nat) (name : String), r.regex.subexpNames[i]? = some name → name ≠ "" →
        (∀ j, i < j → r.regex.subexpNames[j]? ≠ some name) →
        ∃ text, (r.regex.findStringSubmatch path)[i]? = some text ∧
          m.get? name = some text := by
  rw [match_eq_ite] at hok ⊢
  by_cases hc : ((r.regex.findStringSubmatch path).length > 0 ∧
      (r.regex.findStringSubmatch path).head? = some path) ∧
      (r.handler method).isSome = true
  · have hlen : (r.regex.findStringSubmatch path).length = r.regex.subexpNames.length := by
      rcases r.regex.submatch_length path with h | h
      · have := hc.1.1; simp [h] at this
      · exact h
    have hmany : r.regex.subexpNames.length > 1 := by
      obtain ⟨n, hn, hne⟩ := hnamed
      have hhead := r.regex.names_head
      cases hnames : r.regex.subexpNames with
      | nil => simp [hnames] at hn
      | cons a rest =>
        cases rest with
        | nil =>
          simp [hnames] at hn hhead
          exact absurd (hn.trans hhead) hne
        | cons b rest' => simp
    simp only [if_pos hc, if_pos hmany]
    refine ⟨_, rfl, ?_, ?_, ?_⟩
    · intro k
      rw [mem_keys_fillParams]
      simp [GoMap.keys]
    · exact keys_fillParams_nodup _ _ _ _ (by simp [GoMap.keys])
    · intro i name hi hne hlast
      have hilt : i < (r.regex.findStringSubmatch path).length := by
        rw [hlen]
        exact (List.getElem?_eq_some_iff.mp hi).1
      refine ⟨(r.regex.findStringSubmatch path)[i], List.getElem?_eq_getElem hilt, ?_⟩
      rw [get?_fillParams_last _ _ 0 i _ name hi hne hlast]
      simp [List.getD, List.getElem?_eq_getElem hilt]
  · simp [if_neg hc] at hok

/-- The route `/user/profile/{profileID}` on `/user/profile/1`: the map has the
one key `profileID`, with the text of its group. -/
theorem match_params_last_group_witness :
    (∃ n ∈ profileIDRoute.regex.subexpNames, n ≠ "") ∧
      (profileIDRoute.Match "get" "/user/profile/1").1 = true ∧
      ∃ m, (profileIDRoute.Match "get" "/user/profile/1").2 = some m ∧
        (∀ k, k ∈ m.keys ↔ k ∈ profileIDRoute.regex.subexpNames ∧ k ≠ "") ∧
        m.keys.Nodup ∧
        ∀ (i : Nat) (name : String), profileIDRoute.regex.subexpNames[i]? = some name → name ≠ "" →
          (∀ j, i < j → profileIDRoute.regex.subexpNames[j]? ≠ some name) →
          ∃ text, (profileIDRoute.regex.findStringSubmatch "/user/profile/1")[i]? = some text ∧
            m.get? name = some text :=
  ⟨⟨"profileID", by decide, by decide⟩, by decide,
    match_params_last_group profileIDRoute "get" "/user/profile/1"
      ⟨"profileID", by decide, by decide⟩ (by decide)⟩

/-- C3 fails as stated on the template `/{a}/{a}` and the path `/x/y`: the two
groups named `a` matched `x` and `y`, `Match` succeeds, and the map holds `y`
alone, so the first group does not map to its own text. -/
theorem match_params_duplicate_name :
    pairRoute.Match "get" "/x/y" = (true, some [("a", "y")]) ∧
      pairRoute.regex.subexpNames = ["", "a", "a"] ∧
      pairRoute.regex.findStringSubmatch "/x/y" = ["/x/y", "x", "y"] ∧
      ¬ (∀ m, (pairRoute.Match "get" "/x/y").2 = some m →
          ∀ (i : Nat) (name : String), pairRoute.regex.subexpNames[i]? = some name → name ≠ "" →
            ∃ text, (pairRoute.regex.findStringSubmatch "/x/y")[i]? = some text ∧
              m.get? name = some text) := by
  refine ⟨by decide, by decide, by decide, ?_⟩
  intro h
  obtain ⟨text, h1, h2⟩ := h [("a", "y")] (by decide) 1 "a" (by decide) (by decide)
  have h1' : text = "x" := by
    have : (pairRoute.regex.findStringSubmatch "/x/y")[1]? = some "x" := by decide
    rw [this] at h1
    exact (Option.some.inj h1).symm
  subst h1'
  revert h2
  decide

/-- C4 fails on the route of the tests for `/user/profile(.htm[l]?)?`: the
pattern has no named placeholder, its one group has no name, and a successful
`Match` returns an empty map that is not nil. -/
theorem match_unnamed_group_empty_map :
    (∀ n ∈ profileHtmRoute.regex.subexpNames, n = "") ∧
      profileHtmRoute.regex.source = routePattern ["/user/profile(.htm[l]?)?"] "" ∧
      profileHtmRoute.Match "get" "/user/profile" = (true, some []) :=
  ⟨by decide, by decide, by decide⟩

/-! ## Route.BindHandler -/

/-- C6: `BindHandler` panics exactly when the handler is nil or the method has
a handler already, and returns normally exactly in the other cases. -/
theorem bindHandler_panics_iff (r : Route H) (method : String)
    (h : HandleContextFunc H) :
    ((∃ e, r.BindHandler method h = .error e) ↔
        h = none ∨ r.handler method ≠ none) ∧
      ((∃ r', r.BindHandler method h = .ok r') ↔
        ¬ (h = none ∨ r.handler method ≠ none)) := by
  unfold BindHandler
  cases h with
  | none => simp
  | some f =>
    cases hb : r.handler method with
    | none => simp
    | some g => simp

theorem bindHandler_ok {r r' : Route H} {method : String} {h : HandleContextFunc H}
    (hok : r.BindHandler method h = .ok r') :
    h ≠ none ∧ r.handler method = none ∧
      r' = { r with handlers := r.handlers.set method h } := by
  unfold BindHandler at hok
  cases h with
  | none => simp at hok
  | some f =>
    cases hb : r.handler method with
    | none =>
      simp [hb] at hok
      exact ⟨by simp, rfl, hok.symm⟩
    | some g => simp [hb] at hok

theorem bindHandler_handler_self {r r' : Route H} {method : String}
    {h : HandleContextFunc H} (hok : r.BindHandler method h = .ok r') :
    r'.handler method = h := by
  obtain ⟨_, _, rfl⟩ := bindHandler_ok hok
  simp [handler, GoMap.get?_set_self]

theorem bindHandler_handler_other {r r' : Route H} {method other : String}
    {h : HandleContextFunc H} (hok : r.BindHandler method h = .ok r')
    (hne : other ≠ method) : r'.handler other = r.handler other := by
  obtain ⟨_, _, rfl⟩ := bindHandler_ok hok
  simp [handler, GoMap.get?_set_other _ _ _ _ hne]

theorem bindHandler_regex {r r' : Route H} {method : String}
    {h : HandleContextFunc H} (hok : r.BindHandler method h = .ok r') :
    r'.regex = r.regex := by
  obtain ⟨_, _, rfl⟩ := bindHandler_ok hok
  rfl

theorem bindHandler_of_bound (r : Route H) (method : String) (h : HandleContextFunc H)
    (hb : r.handler method ≠ none) :
    ∃ e, r.BindHandler method h = .error e := by
  unfold BindHandler
  cases h with
  | none => exact ⟨_, rfl⟩
  | some f =>
    cases hh : r.handler method with
    | none => exact absurd hh hb
    | some g => exact ⟨duplicatePanic, by simp⟩

theorem bindAll_handler (r : Route H) (method : String) (f : H)
    (hb : r.handler method = some f) (calls : List (String × HandleContextFunc H)) :
    (r.bindAll calls).handler method = some f := by
  induction calls generalizing r with
  | nil => simpa [bindAll] using hb
  | cons c rest ih =>
    obtain ⟨m', h'⟩ := c
    cases hcall : r.BindHandler m' h' with
    | error e =>
      simp only [bindAll, hcall]
      exact ih r hb
    | ok r' =>
      simp only [bindAll, hcall]
      apply ih r'
      by_cases hm : method = m'
      · subst hm
        obtain ⟨e, he⟩ := bindHandler_of_bound r method h' (by simp [hb])
        rw [he] at hcall
        cases hcall
      · rw [bindHandler_handler_other hcall hm]
        exact hb

theorem bindAll_keys_nodup (r : Route H) (calls : List (String × HandleContextFunc H))
    (hn : r.handlers.keys.Nodup) : (r.bindAll calls).handlers.keys.Nodup := by
  induction calls generalizing r with
  | nil => simpa [bindAll] using hn
  | cons c rest ih =>
    obtain ⟨m', h'⟩ := c
    cases hcall : r.BindHandler m' h' with
    | error e =>
      simp only [bindAll, hcall]
      exact ih r hn
    | ok r' =>
      simp only [bindAll, hcall]
      apply ih r'
      obtain ⟨_, _, rfl⟩ := bindHandler_ok hcall
      exact GoMap.keys_set_nodup _ _ _ hn

/-- C7: once `BindHandler(m, h)` has succeeded, after every later sequence of
`BindHandler` calls on the route, successful or not, the handler of `m` is
still `h`, a further `BindHandler` for `m` panics, and the map of handlers
still has one entry per method if it had before. -/
theorem bindHandler_never_replaced (r r1 : Route H) (m : String)
    (h : HandleContextFunc H) (hok : r.BindHandler m h = .ok r1)
    (calls : List (String × HandleContextFunc H)) :
    (r1.bindAll calls).handler m = h ∧ h ≠ none ∧
      (∀ h2, (r1.bindAll calls).BindHandler m h2 = .error
        (if h2.isNone then nilHandlerPanic else duplicatePanic)) ∧
      (r.handlers.keys.Nodup → (r1.bindAll calls).handlers.keys.Nodup) := by
  have hne := (bindHandler_ok hok).1
  obtain ⟨f, rfl⟩ := Option.ne_none_iff_exists'.mp hne
  have hb := bindAll_handler r1 m f (bindHandler_handler_self hok) calls
  refine ⟨hb, hne, ?_, ?_⟩
  · intro h2
    unfold BindHandler
    cases h2 with
    | none => simp
    | some g => simp [hb]
  · intro hn
    apply bindAll_keys_nodup
    obtain ⟨_, _, rfl⟩ := bindHandler_ok hok
    exact GoMap.keys_set_nodup _ _ _ hn

/-- On the route `/user/profile/{profileID}`, `post` is bound to handler 7;
a second handler for `post`, a nil handler and a handler for `put` follow, and
`post` still has handler 7. -/
theorem bindHandler_never_replaced_witness :
    (∃ r1, profileIDRoute.BindHandler "post" (some 7) = .ok r1 ∧
      (r1.bindAll [("post", some 8), ("get", none), ("put", some 9)]).handler "post"
        = some 7) :=
  ⟨{ profileIDRoute with handlers := profileIDRoute.handlers.set "post" (some 7) }, rfl,
    (bindHandler_never_replaced profileIDRoute _ "post" (some 7) rfl
      [("post", some 8), ("get", none), ("put", some 9)]).1⟩

end Route

/-! ## Router.MatchRoute -/

namespace Router

variable {H : Type}

theorem matchLoop_of_first (routes : List (Route H)) (method path : String)
    (i : Nat) (rt : Route H) (hi : routes[i]? = some rt)
    (hok : (rt.Match method path).1 = true)
    (hmin : ∀ (j : Nat) (rt' : Route H), j < i → routes[j]? = some rt' →
      (rt'.Match method path).1 = false) :
    matchLoop routes method path = (some rt, (rt.Match method path).2) := by
  induction routes generalizing i with
  | nil => simp at hi
  | cons a rest ih =>
    cases i with
    | zero =>
      have ha : a = rt := by simpa using hi
      subst ha
      simp [matchLoop, hok]
    | succ i' =>
      have h0 : (a.Match method path).1 = false := hmin 0 a (Nat.succ_pos i') (by simp)
      simp only [matchLoop, h0, Bool.false_eq_true, if_false]
      apply ih i' (by simpa using hi)
      intro j rt' hj hrt'
      exact hmin (j + 1) rt' (Nat.succ_lt_succ hj) (by simpa using hrt')

theorem matchLoop_none_iff (routes : List (Route H)) (method path : String) :
    matchLoop routes method path = (none, none) ↔
      ∀ rt ∈ routes, (rt.Match method path).1 = false := by
  induction routes with
  | nil => simp [matchLoop]
  | cons a rest ih =>
    by_cases h0 : (a.Match method path).1 = true
    · simp [matchLoop, h0]
    · have h0' : (a.Match method path).1 = false := by simpa using h0
      simp [matchLoop, h0', ih]

/-- C10: `MatchRoute` returns the route of least index on which `Match`
succeeds, with the parameter map this `Match` returned, and returns
`(nil, nil)` exactly when `Match` fails on every route. -/
theorem matchRoute_first (r : Router H) (method path : String) :
    (∀ (i : Nat) (rt : Route H), r.routes[i]? = some rt →
        (rt.Match method path).1 = true →
        (∀ (j : Nat) (rt' : Route H), j < i → r.routes[j]? = some rt' →
          (rt'.Match method path).1 = false) →
        r.MatchRoute method path = (some rt, (rt.Match method path).2)) ∧
      (r.MatchRoute method path = (none, none) ↔
        ∀ rt ∈ r.routes, (rt.Match method path).1 = false) :=
  ⟨fun i rt hi hok hmin => matchLoop_of_first r.routes method path i rt hi hok hmin,
    matchLoop_none_iff r.routes method path⟩

/-! ## Router.BindRoute -/

theorem bindExisting_eq_none_iff (rs : List (Route H)) (s m : String)
    (h : HandleContextFunc H) :
    bindExisting rs s m h = none ↔ ∀ rt ∈ rs, rt.regex.source ≠ s := by
  induction rs with
  | nil => simp [bindExisting]
  | cons a rest ih =>
    by_cases hs : a.regex.source = s
    · cases hb : a.BindHandler m h <;> simp [bindExisting, hs, hb]
    · cases hr : bindExisting rest s m h with
      | none => simpa [bindExisting, hs, hr] using ih.mp hr
      | some res =>
        have hex : ¬ ∀ rt ∈ rest, rt.regex.source ≠ s := fun hall => by
          rw [ih.mpr hall] at hr; cases hr
        cases res <;> simp [bindExisting, hs, hr] <;> simpa using hex

theorem bindExisting_ok (rs rs' : List (Route H)) (s m : String)
    (h : HandleContextFunc H) (hok : bindExisting rs s m h = some (.ok rs')) :
    ∃ (i : Nat) (rt rt' : Route H), rs[i]? = some rt ∧ rt.regex.source = s ∧
      rt.BindHandler m h = .ok rt' ∧ rs' = rs.set i rt' := by
  induction rs generalizing rs' with
  | nil => simp [bindExisting] at hok
  | cons a rest ih =>
    by_cases hs : a.regex.source = s
    · cases hb : a.BindHandler m h with
      | error e => simp [bindExisting, hs, hb] at hok
      | ok a' =>
        simp [bindExisting, hs, hb] at hok
        exact ⟨0, a, a', by simp, hs, hb, by simp [hok]⟩
    · cases hr : bindExisting rest s m h with
      | none => simp [bindExisting, hs, hr] at hok
      | some res =>
        cases res with
        | error e => simp [bindExisting, hs, hr] at hok
        | ok rest' =>
          simp [bindExisting, hs, hr] at hok
          obtain ⟨i, rt, rt', hi, hsrc, hbind, hset⟩ := ih rest' hr
          exact ⟨i + 1, rt, rt', by simpa using hi, hsrc, hbind, by simp [← hok, hset]⟩

theorem bindHandler_bound (r : Route H) (m : String) (b : H)
    (hb : r.handler m ≠ none) : r.BindHandler m (some b) = .error duplicatePanic := by
  unfold Route.BindHandler
  cases hh : r.handler m with
  | none => exact absurd hh hb
  | some g => simp

theorem bindHandler_unbound (r : Route H) (m : String) (b : H)
    (hb : r.handler m = none) :
    r.BindHandler m (some b) = .ok { r with handlers := r.handlers.set m (some b) } := by
  unfold Route.BindHandler
  simp [hb]

theorem bindExisting_again (rs rs' : List (Route H)) (s m : String) (a b : H)
    (hok : bindExisting rs s m (some a) = some (.ok rs')) :
    bindExisting rs' s m (some b) = some (.error duplicatePanic) := by
  induction rs generalizing rs' with
  | nil => simp [bindExisting] at hok
  | cons x rest ih =>
    by_cases hs : x.regex.source = s
    · cases hb : x.BindHandler m (some a) with
      | error e => simp [bindExisting, hs, hb] at hok
      | ok x' =>
        simp [bindExisting, hs, hb] at hok
        subst hok
        have hs' : x'.regex.source = s := by rw [Route.bindHandler_regex hb]; exact hs
        have hbound : x'.handler m ≠ none := by
          rw [Route.bindHandler_handler_self hb]; simp
        simp [bindExisting, hs', bindHandler_bound x' m b hbound]
    · cases hr : bindExisting rest s m (some a) with
      | none => simp [bindExisting, hs, hr] at hok
      | some res =>
        cases res with
        | error e => simp [bindExisting, hs, hr] at hok
        | ok rest' =>
          simp [bindExisting, hs, hr] at hok
          subst hok
          simp [bindExisting, hs, ih rest' hr]

theorem bindExisting_append_new (rs : List (Route H)) (rt : Route H) (s m : String)
    (b : H) (hnone : ∀ x ∈ rs, x.regex.source ≠ s) (hs : rt.regex.source = s)
    (hbound : rt.handler m ≠ none) :
    bindExisting (rs ++ [rt]) s m (some b) = some (.error duplicatePanic) := by
  induction rs with
  | nil => simp [bindExisting, hs, bindHandler_bound rt m b hbound]
  | cons x rest ih =>
    have hx : x.regex.source ≠ s := hnone x (List.mem_cons_self _ _)
    have hrest : ∀ y ∈ rest, y.regex.source ≠ s :=
      fun y hy => hnone y (List.mem_cons_of_mem _ hy)
    simp [bindExisting, hx, ih hrest]

theorem bindExisting_unbound (rs : List (Route H)) (s m : String) (b : H)
    (hfree : ∀ rt ∈ rs, rt.regex.source = s → rt.handler m = none) :
    bindExisting rs s m (some b) = none ∨
      ∃ rs', bindExisting rs s m (some b) = some (.ok rs') := by
  induction rs with
  | nil => simp [bindExisting]
  | cons x rest ih =>
    have hrest : ∀ rt ∈ rest, rt.regex.source = s → rt.handler m = none :=
      fun y hy => hfree y (List.mem_cons_of_mem _ hy)
    by_cases hs : x.regex.source = s
    · right
      have := bindHandler_unbound x m b (hfree x (List.mem_cons_self _ _) hs)
      simp [bindExisting, hs, this]
    · rcases ih hrest with h | ⟨rest', h⟩
      · left; simp [bindExisting, hs, h]
      · right; simp [bindExisting, hs, h]

theorem bindRoute_eq (lib : RegexpLib) (r : Router H) (m t : String)
    (h : HandleContextFunc H) (re : Regexp)
    (hc : lib.MustCompile (routePattern r.groups t) = .ok re) :
    r.BindRoute lib m t h =
      match bindExisting r.routes re.source m h with
      | some (.ok routes') => .ok { r with routes := routes' }
      | some (.error e) => .error e
      | none =>
        match ({ regex := re, handlers := [] } : Route H).BindHandler m h with
        | .ok route' => .ok { r with routes := r.routes ++ [route'] }
        | .error e => .error e := by
  unfold BindRoute Route.DefaultRoute
  simp only [hc]

theorem bindRoute_compiles (lib : RegexpLib) (r r1 : Router H) (m t : String)
    (h : HandleContextFunc H) (hok : r.BindRoute lib m t h = .ok r1) :
    ∃ re, lib.MustCompile (routePattern r.groups t) = .ok re := by
  unfold BindRoute Route.DefaultRoute at hok
  cases hc : lib.MustCompile (routePattern r.groups t) with
  | error e => simp [hc] at hok
  | ok re => exact ⟨re, rfl⟩

/-- What a successful `BindRoute` did: the first route with the pattern got
the handler, or there was none and a new route with the handler was appended. -/
theorem bindRoute_ok (lib : RegexpLib) (r r1 : Router H) (m t : String)
    (h : HandleContextFunc H) (hok : r.BindRoute lib m t h = .ok r1) :
    ∃ re, lib.MustCompile (routePattern r.groups t) = .ok re ∧ r1.groups = r.groups ∧
      ((bindExisting r.routes re.source m h = some (.ok r1.routes)) ∨
        (bindExisting r.routes re.source m h = none ∧
          ∃ rt', ({ regex := re, handlers := [] } : Route H).BindHandler m h = .ok rt' ∧
            r1.routes = r.routes ++ [rt'])) := by
  obtain ⟨re, hc⟩ := bindRoute_compiles lib r r1 m t h hok
  refine ⟨re, hc, ?_⟩
  rw [bindRoute_eq lib r m t h re hc] at hok
  cases hex : bindExisting r.routes re.source m h with
  | none =>
    rw [hex] at hok
    cases hb : ({ regex := re, handlers := [] } : Route H).BindHandler m h with
    | error e => simp [hb] at hok
    | ok rt' =>
      simp [hb] at hok
      subst hok
      exact ⟨rfl, Or.inr ⟨rfl, rt', rfl, rfl⟩⟩
  | some res =>
    rw [hex] at hok
    cases res with
    | error e => simp at hok
    | ok rs' =>
      simp at hok
      subst hok
      exact ⟨rfl, Or.inl rfl⟩

theorem handler_of_empty (re : Regexp) (m : String) :
    ({ regex := re, handlers := [] } : Route H).handler m = none := by
  simp [Route.handler, GoMap.get?]

/-- C8, as the model has it: after a successful `BindRoute`, a second call with
the same method and the same fully-qualified path fails with the
duplicate-binding panic, and a second call with another method succeeds when
that method has no handler yet on a route of this pattern. -/
theorem bindRoute_twice (lib : RegexpLib) (r r1 : Router H) (m t : String) (a b : H)
    (h1 : r.BindRoute lib m t (some a) = .ok r1) :
    r1.BindRoute lib m t (some b) = .error duplicatePanic ∧
      ∀ m2, m2 ≠ m →
        (∀ rt ∈ r.routes, rt.regex.source = routePattern r.groups t →
          rt.handler m2 = none) →
        ∃ r2, r1.BindRoute lib m2 t (some b) = .ok r2 := by
  obtain ⟨re, hc, hg, hcase⟩ := bindRoute_ok lib r r1 m t (some a) h1
  have hc1 : lib.MustCompile (routePattern r1.groups t) = .ok re := by rw [hg]; exact hc
  have hsrc : re.source = routePattern r.groups t := lib.source_eq _ _ hc
  constructor
  · rw [bindRoute_eq lib r1 m t (some b) re hc1]
    rcases hcase with hex | ⟨hnone, rt', hbind, hroutes⟩
    · rw [bindExisting_again r.routes r1.routes re.source m a b hex]
    · have hs : rt'.regex.source = re.source := by rw [Route.bindHandler_regex hbind]
      have hbound : rt'.handler m ≠ none := by
        rw [Route.bindHandler_handler_self hbind]; simp
      rw [hroutes, bindExisting_append_new r.routes rt' re.source m b
        ((bindExisting_eq_none_iff _ _ _ _).mp hnone) hs hbound]
  · intro m2 hm2 hfree
    have hfree1 : ∀ rt ∈ r1.routes, rt.regex.source = re.source → rt.handler m2 = none := by
      intro x hx hxs
      rcases hcase with hex | ⟨hnone, rt', hbind, hroutes⟩
      · obtain ⟨i, rt, rt', hi, hrs, hbind, hset⟩ :=
          bindExisting_ok r.routes r1.routes re.source m (some a) hex
        rw [hset] at hx
        rcases List.mem_or_eq_of_mem_set hx with hmem | heq
        · exact hfree x hmem (hxs.trans hsrc)
        · rw [heq, Route.bindHandler_handler_other hbind hm2]
          exact hfree rt (List.getElem?_mem hi) (hrs.trans hsrc)
      · rw [hroutes] at hx
        rcases List.mem_append.mp hx with hmem | hlast
        · exact hfree x hmem (hxs.trans hsrc)
        · have hx' : x = rt' := by simpa using hlast
          rw [hx', Route.bindHandler_handler_other hbind hm2]
          exact handler_of_empty re m2
    rw [bindRoute_eq lib r1 m2 t (some b) re hc1]
    rcases bindExisting_unbound r1.routes re.source m2 b hfree1 with hn | ⟨rs', hs'⟩
    · rw [hn, bindHandler_unbound _ m2 b (handler_of_empty re m2)]
      exact ⟨_, rfl⟩
    · rw [hs']
      exact ⟨_, rfl⟩

/-- On the router of `Test_GroupRoute`, before `post` is bound on
`/user/profile/{profileID}`: after `get` is bound on that path, a second `get`
panics and `post` succeeds. -/
theorem bindRoute_twice_witness :
    profileRouter.BindRoute testLib "get" "/{profileID}" (some 2)
        = .ok profileRouter' ∧
      profileRouter'.BindRoute testLib "get" "/{profileID}" (some 3)
        = .error duplicatePanic ∧
      ∃ r2, profileRouter'.BindRoute testLib "post" "/{profileID}" (some 3) = .ok r2 :=
  ⟨rfl,
   (bindRoute_twice testLib profileRouter profileRouter' "get" "/{profileID}" 2 3 rfl).1,
   (bindRoute_twice testLib profileRouter profileRouter' "get" "/{profileID}" 2 3 rfl).2
     "post" (by decide) (by decide)⟩

/-- C8 fails as stated on a router state in which `/sample` has `post` bound:
`get` and `post` are different methods, the call for `get` succeeds and the
call for `post` that follows panics. -/
theorem bindRoute_other_method_bound :
    ∃ r1 : Router Nat,
      Router.empty.BindRoute testLib "post" "/sample" (some 0) = .ok sampleRouter ∧
      sampleRouter.BindRoute testLib "get" "/sample" (some 1) = .ok r1 ∧
      r1.BindRoute testLib "post" "/sample" (some 2) = .error duplicatePanic :=
  ⟨{ routes := [{ regex := literalRegexp "/sample",
                  handlers := [("post", some 0), ("get", some 1)] }],
     groups := [] }, rfl, rfl, rfl⟩

/-! ## One route per pattern -/

theorem bindRoute_sources_nodup (lib : RegexpLib) (r r1 : Router H) (m t : String)
    (h : HandleContextFunc H) (hok : r.BindRoute lib m t h = .ok r1)
    (hinv : (r.routes.map (fun rt => rt.regex.source)).Nodup) :
    (r1.routes.map (fun rt => rt.regex.source)).Nodup := by
  obtain ⟨re, _, _, hcase⟩ := bindRoute_ok lib r r1 m t h hok
  rcases hcase with hex | ⟨hnone, rt', hbind, hroutes⟩
  · obtain ⟨i, rt, rt', hi, _, hbind, hset⟩ :=
      bindExisting_ok r.routes r1.routes re.source m h hex
    have hsame : r1.routes.map (fun rt => rt.regex.source)
        = r.routes.map (fun rt => rt.regex.source) := by
      rw [hset, List.map_set, Route.bindHandler_regex hbind]
      apply List.ext_getElem?
      intro n
      by_cases hn : i = n
      · subst hn
        rw [List.getElem?_set_self', List.getElem?_map, hi]
        rfl
      · rw [List.getElem?_set_ne hn]
    rw [hsame]; exact hinv
  · rw [hroutes, List.map_append, List.nodup_append]
    refine ⟨hinv, by simp, ?_⟩
    intro x hx hy
    have hxe : x = rt'.regex.source := by simpa using hy
    obtain ⟨y, hy1, hy2⟩ := List.mem_map.mp hx
    have := (bindExisting_eq_none_iff _ _ _ _).mp hnone y hy1
    rw [Route.bindHandler_regex hbind] at hxe
    exact this (hy2.trans hxe)

theorem run_sources_nodup (lib : RegexpLib) (script : Script H) (r r' : Router H)
    (hrun : script.run lib r = .ok r')
    (hinv : (r.routes.map (fun rt => rt.regex.source)).Nodup) :
    (r'.routes.map (fun rt => rt.regex.source)).Nodup := by
  induction script generalizing r r' with
  | done =>
    simp only [Script.run] at hrun
    cases hrun
    exact hinv
  | bind m t h next ih =>
    simp only [Script.run] at hrun
    cases hb : r.BindRoute lib m t h with
    | error e => simp [hb] at hrun
    | ok r1 =>
      simp only [hb] at hrun
      exact ih r1 r' hrun (bindRoute_sources_nodup lib r r1 m t h hb hinv)
  | group g body next ihb ihn =>
    simp only [Script.run, GroupRoute] at hrun
    cases hb : body.run lib { r with groups := r.groups ++ [g] } with
    | error e => simp [hb] at hrun
    | ok r1 =>
      simp only [hb] at hrun
      exact ihn _ r' hrun (ihb _ r1 hb hinv)

/-- C9: after any registration that succeeds, no two routes have the same
pattern source; and a `BindRoute` whose pattern is the pattern of a route in
the sequence leaves the number of routes unchanged and binds the handler on
that route. -/
theorem routes_one_per_pattern (lib : RegexpLib) (script : Script H) (r : Router H)
    (hrun : script.run lib Router.empty = .ok r) :
    (r.routes.map (fun rt => rt.regex.source)).Nodup ∧
      ∀ (m t : String) (h : HandleContextFunc H) (r' : Router H),
        (∃ rt ∈ r.routes, rt.regex.source = routePattern r.groups t) →
        r.BindRoute lib m t h = .ok r' →
        r'.routes.length = r.routes.length ∧
          ∃ (i : Nat) (rt rt' : Route H), r.routes[i]? = some rt ∧
            rt.regex.source = routePattern r.groups t ∧
            (∀ (j : Nat) (x : Route H), r.routes[j]? = some x →
              x.regex.source = routePattern r.groups t → j = i) ∧
            rt.BindHandler m h = .ok rt' ∧ r'.routes = r.routes.set i rt' := by
  have hinv := run_sources_nodup lib script Router.empty r hrun (by simp [Router.empty])
  refine ⟨hinv, ?_⟩
  intro m t h r' hex hok
  obtain ⟨re, hc, _, hcase⟩ := bindRoute_ok lib r r' m t h hok
  have hsrc : re.source = routePattern r.groups t := lib.source_eq _ _ hc
  rcases hcase with hfound | ⟨hnone, _⟩
  · obtain ⟨i, rt, rt', hi, hrs, hbind, hset⟩ :=
      bindExisting_ok r.routes r'.routes re.source m h hfound
    refine ⟨by rw [hset, List.length_set], i, rt, rt', hi, hrs.trans hsrc, ?_, hbind, hset⟩
    intro j x hj hxs
    have hi' := List.getElem?_eq_some_iff.mp hi
    have hj' := List.getElem?_eq_some_iff.mp hj
    obtain ⟨hil, hie⟩ := hi'
    obtain ⟨hjl, hje⟩ := hj'
    have hil' : i < (r.routes.map (fun rt => rt.regex.source)).length := by simpa using hil
    have hjl' : j < (r.routes.map (fun rt => rt.regex.source)).length := by simpa using hjl
    have heq : (r.routes.map (fun rt => rt.regex.source))[j]
        = (r.routes.map (fun rt => rt.regex.source))[i] := by
      simp only [List.getElem_map, hie, hje, hxs, hrs, hsrc]
    exact (List.Nodup.getElem_inj_iff hinv).mp heq
  · obtain ⟨rt, hmem, hrs⟩ := hex
    exact absurd (hrs.trans hsrc.symm) ((bindExisting_eq_none_iff _ _ _ _).mp hnone rt hmem)

/-- The registration of `Test_GroupRoute` gives two routes with two patterns,
`get` and `post` being on the second; a `BindRoute` for `put` on the path of
the second route then leaves two routes. -/
theorem routes_one_per_pattern_witness :
    groupRouteScript.run testLib Router.empty = .ok groupRouteRouter ∧
      groupRouteRouter.routes.length = 2 ∧
      (groupRouteRouter.routes.map (fun rt => rt.regex.source)).Nodup ∧
      ∀ r', groupRouteRouter.BindRoute testLib "put" "/user/profile/{profileID}" (some 4)
          = .ok r' → r'.routes.length = groupRouteRouter.routes.length :=
  ⟨rfl, rfl, (routes_one_per_pattern testLib groupRouteScript groupRouteRouter rfl).1,
    fun r' hr' =>
      ((routes_one_per_pattern testLib groupRouteScript groupRouteRouter rfl).2
        "put" "/user/profile/{profileID}" (some 4) r'
        ⟨_, List.mem_cons_of_mem _ (List.mem_cons_self _ _), by decide⟩ hr').1⟩

end Router

/-! ## Route.BindHandler: what a call changes -/

namespace Route

variable {H : Type}

/-- C17: when `m` is unbound and `h` is not nil, `BindHandler(m, h)` returns,
and afterwards the handler of `m` is `h`, the handler of every other method is
what it was, and the pattern is unchanged. -/
theorem bindHandler_frame (r : Route H) (m : String) (h : HandleContextFunc H)
    (hh : h ≠ none) (hm : r.handler m = none) :
    ∃ r', r.BindHandler m h = .ok r' ∧ r'.handler m = h ∧
      (∀ m2, m2 ≠ m → r'.handler m2 = r.handler m2) ∧ r'.regex = r.regex := by
  obtain ⟨f, rfl⟩ := Option.ne_none_iff_exists'.mp hh
  have hok : r.BindHandler m (some f)
      = .ok { r with handlers := r.handlers.set m (some f) } := by
    unfold BindHandler; simp [hm]
  exact ⟨_, hok, bindHandler_handler_self hok,
    fun m2 hne => bindHandler_handler_other hok hne, bindHandler_regex hok⟩

/-- The route `/user/profile/{profileID}` has `get` only; `post` gets handler
7, and `get` keeps handler 3. -/
theorem bindHandler_frame_witness :
    profileIDRoute.handler "post" = none ∧
      ∃ r', profileIDRoute.BindHandler "post" (some 7) = .ok r' ∧
        r'.handler "post" = some 7 ∧
        (∀ m2, m2 ≠ "post" → r'.handler m2 = profileIDRoute.handler m2) ∧
        r'.regex = profileIDRoute.regex :=
  ⟨by decide, bindHandler_frame profileIDRoute "post" (some 7) (by decide) (by decide)⟩

theorem afterBindHandler_ok (r r' : Route H) (m : String) (h : HandleContextFunc H) :
    r.BindHandler m h = .ok r' ↔ r.afterBindHandler m h = (r', none) := by
  unfold BindHandler afterBindHandler
  cases h with
  | none => simp
  | some f =>
    cases hb : r.handler m with
    | none => simp
    | some g => simp

/-- C18: when `BindHandler` panics, the receiver it leaves behind is the route
before the call: same handlers, same pattern, and the handler that was bound for
the method is still bound. -/
theorem bindHandler_atomic (r : Route H) (m : String) (h : HandleContextFunc H)
    (e : String) (hfail : r.BindHandler m h = .error e) :
    r.afterBindHandler m h = (r, some e) ∧
      (r.afterBindHandler m h).1.handlers = r.handlers ∧
      (r.afterBindHandler m h).1.regex = r.regex ∧
      (r.afterBindHandler m h).1.handler m = r.handler m ∧
      (h = none ∨ r.handler m ≠ none) := by
  unfold BindHandler at hfail
  unfold afterBindHandler
  cases h with
  | none =>
    simp at hfail
    simp [hfail]
  | some f =>
    cases hb : r.handler m with
    | none => simp [hb] at hfail
    | some g =>
      simp [hb] at hfail
      simp [hb, hfail]

/-- On the route `/user/profile/{profileID}`, a second handler for `get`
panics and handler 3 stays. -/
theorem bindHandler_atomic_witness :
    profileIDRoute.BindHandler "get" (some 9) = .error duplicatePanic ∧
      (profileIDRoute.afterBindHandler "get" (some 9)).1.handler "get" = some 3 :=
  ⟨rfl, by
    rw [(bindHandler_atomic profileIDRoute "get" (some 9) duplicatePanic rfl).2.2.2.1]
    decide⟩

/-! ## Route.InvokeHandler -/

/-- C19: when `Match` succeeded for the method of the context, the handler
that `InvokeHandler` looks up is not nil and the call is the call of the handler
bound for that method; with no handler for the method of a context,
`InvokeHandler` calls a nil func and panics. -/
theorem invokeHandler_after_match {R : Type} (r : Route (RequestContext → R))
    (c : RequestContext) (path : String)
    (hmatch : (r.Match c.Method path).1 = true) :
    (∃ f, r.handler c.Method = some f ∧ r.InvokeHandler c = .ok (f c)) ∧
      ∀ c' : RequestContext, r.handler c'.Method = none →
        r.InvokeHandler c' = .error nilFuncPanic := by
  constructor
  · rw [match_eq_ite] at hmatch
    by_cases hc : ((r.regex.findStringSubmatch path).length > 0 ∧
        (r.regex.findStringSubmatch path).head? = some path) ∧
        (r.handler c.Method).isSome = true
    · obtain ⟨f, hf⟩ := Option.isSome_iff_exists.mp hc.2
      exact ⟨f, hf, by simp [InvokeHandler, hf]⟩
    · simp [if_neg hc] at hmatch
  · intro c' hnone
    simp [InvokeHandler, hnone]

/-- The route that answers with `profileID` matches `get /user/profile/1` and
its handler is called; for `post` the call is the call of a nil func. -/
theorem invokeHandler_after_match_witness :
    (echoRoute.Match profileContext.Method "/user/profile/1").1 = true ∧
      echoRoute.InvokeHandler profileContext = .ok (some "1") ∧
      echoRoute.InvokeHandler { profileContext with Method := "post" }
        = .error nilFuncPanic :=
  ⟨by decide, rfl,
    (invokeHandler_after_match echoRoute profileContext "/user/profile/1" (by decide)).2
      { profileContext with Method := "post" } rfl⟩

/-! ## Route.Match and the handlers of other methods -/

theorem match_congr (r1 r2 : Route H) (m p : String) (hre : r1.regex = r2.regex)
    (hb : (r1.handler m).isSome = (r2.handler m).isSome) :
    r1.Match m p = r2.Match m p := by
  rw [match_eq_ite, match_eq_ite, hre, hb]

/-- C20: a successful `BindHandler(m2, h)` leaves `Match(m, p)` as it was for
every other method `m`, flag and parameters; the result of `Match` is fixed by
the pattern and by whether the method is bound. -/
theorem match_after_bindHandler (r r' : Route H) (m m2 p : String)
    (h : HandleContextFunc H) (hne : m ≠ m2) (hok : r.BindHandler m2 h = .ok r') :
    r'.Match m p = r.Match m p ∧
      ∀ r1 r2 : Route H, r1.regex = r2.regex →
        ((r1.handler m).isSome = (r2.handler m).isSome) →
        r1.Match m p = r2.Match m p :=
  ⟨match_congr r' r m p (bindHandler_regex hok)
      (by rw [bindHandler_handler_other hok hne]),
    fun r1 r2 hre hb => match_congr r1 r2 m p hre hb⟩

/-- Binding `post` on the route `/user/profile/{profileID}` leaves the match of
`get /user/profile/1` as it was. -/
theorem match_after_bindHandler_witness :
    ∃ r', profileIDRoute.BindHandler "post" (some 7) = .ok r' ∧
      r'.Match "get" "/user/profile/1" = (true, some [("profileID", "1")]) ∧
      profileIDRoute.Match "get" "/user/profile/1" = (true, some [("profileID", "1")]) :=
  ⟨{ profileIDRoute with handlers := profileIDRoute.handlers.set "post" (some 7) }, rfl,
    by
      rw [(match_after_bindHandler profileIDRoute _ "get" "post" "/user/profile/1"
        (some 7) (by decide) rfl).1]
      decide,
    by decide⟩

end Route

/-! ## The pattern of a template -/

theorem expandPlaceholders_name (name rest acc : List Char) (hname : '}' ∉ name) :
    expandPlaceholders (name ++ '}' :: rest) (some acc)
      = placeholderGroup (acc ++ name) ++ expandPlaceholders rest none := by
  induction name generalizing acc with
  | nil => simp [expandPlaceholders]
  | cons c cs ih =>
    have hc : c ≠ '}' := fun h => hname (h ▸ List.mem_cons_self _ _)
    have hcs : '}' ∉ cs := fun h => hname (List.mem_cons_of_mem _ h)
    simp only [List.cons_append, expandPlaceholders, hc, if_false, List.append_eq]
    rw [ih _ hcs]
    simp

theorem expandPlaceholders_unclosed (u acc : List Char) (hu : '}' ∉ u) :
    expandPlaceholders u (some acc) = '{' :: (acc ++ u) := by
  induction u generalizing acc with
  | nil => simp [expandPlaceholders]
  | cons c cs ih =>
    have hc : c ≠ '}' := fun h => hu (h ▸ List.mem_cons_self _ _)
    have hcs : '}' ∉ cs := fun h => hu (List.mem_cons_of_mem _ h)
    simp only [expandPlaceholders, hc, if_false]
    rw [ih _ hcs]
    simp

theorem expandPlaceholders_pieces (pieces : List Piece) (tail : List Char)
    (hwf : ∀ p ∈ pieces, p.WellFormed) :
    expandPlaceholders (templateText pieces ++ tail) none
      = patternText pieces ++ expandPlaceholders tail none := by
  induction pieces with
  | nil => simp [templateText, patternText]
  | cons p rest ih =>
    have hrest : ∀ q ∈ rest, q.WellFormed := fun q hq => hwf q (List.mem_cons_of_mem _ hq)
    have hp : p.WellFormed := hwf p (List.mem_cons_self _ _)
    cases p with
    | char c =>
      have hc : c ≠ '{' := hp
      simp only [templateText, patternText, List.cons_append, expandPlaceholders, hc,
        if_false, List.append_eq]
      rw [ih hrest]
    | placeholder name =>
      have hname : '}' ∉ name := hp
      simp only [templateText, patternText, List.cons_append, expandPlaceholders, if_true,
        List.append_eq]
      rw [List.append_assoc, List.cons_append, expandPlaceholders_name _ _ _ hname, ih hrest]
      simp [placeholderGroup]

theorem template_pieces_aux (n : Nat) : ∀ cs : List Char, cs.length ≤ n →
    ∃ (pieces : List Piece) (tail : List Char), (∀ p ∈ pieces, p.WellFormed) ∧
      (tail = [] ∨ ∃ u, tail = '{' :: u ∧ '}' ∉ u) ∧ cs = templateText pieces ++ tail := by
  induction n with
  | zero =>
    intro cs hlen
    have : cs = [] := List.length_eq_zero.mp (Nat.le_zero.mp hlen)
    subst this
    exact ⟨[], [], by simp, Or.inl rfl, rfl⟩
  | succ n ih =>
    intro cs hlen
    cases cs with
    | nil => exact ⟨[], [], by simp, Or.inl rfl, rfl⟩
    | cons c rest =>
      have hrest : rest.length ≤ n := by simpa using hlen
      by_cases hc : c = '{'
      · subst hc
        have hsplit := List.takeWhile_append_dropWhile (fun x => x != '}') rest
        have hname : '}' ∉ rest.takeWhile (fun x => x != '}') := by
          intro hmem
          have := List.mem_takeWhile_imp hmem
          simp at this
        cases hdrop : rest.dropWhile (fun x => x != '}') with
        | nil =>
          rw [hdrop, List.append_nil] at hsplit
          refine ⟨[], '{' :: rest, by simp, Or.inr ⟨rest, rfl, ?_⟩, rfl⟩
          rw [← hsplit]; exact hname
        | cons d more =>
          have hd : d = '}' := by
            have := List.head_dropWhile_not (fun x => x != '}') rest (by simp [hdrop])
            simp [hdrop] at this
            exact this
          subst hd
          have hmore : more.length ≤ n := by
            have : rest.length = (rest.takeWhile (fun x => x != '}')).length + (more.length + 1) := by
              conv_lhs => rw [← hsplit, hdrop]
              simp
            omega
          obtain ⟨pieces, tail, hwf, htail, htext⟩ := ih more hmore
          refine ⟨Piece.placeholder (rest.takeWhile (fun x => x != '}')) :: pieces, tail, ?_, htail, ?_⟩
          · intro p hp
            rcases List.mem_cons.mp hp with rfl | hp
            · exact hname
            · exact hwf p hp
          · simp only [templateText, List.cons_append, List.append_assoc]
            rw [← htext, ← hdrop, hsplit]
      · obtain ⟨pieces, tail, hwf, htail, htext⟩ := ih rest hrest
        refine ⟨Piece.char c :: pieces, tail, ?_, htail, ?_⟩
        · intro p hp
          rcases List.mem_cons.mp hp with rfl | hp
          · exact hc
          · exact hwf p hp
        · simp only [templateText, List.cons_append]
          rw [← htext]

/-- Every text is a sequence of well-formed parts, followed by nothing or by a
`{` that is never closed. -/
theorem template_pieces (cs : List Char) :
    ∃ (pieces : List Piece) (tail : List Char), (∀ p ∈ pieces, p.WellFormed) ∧
      (tail = [] ∨ ∃ u, tail = '{' :: u ∧ '}' ∉ u) ∧ cs = templateText pieces ++ tail :=
  template_pieces_aux cs.length cs (Nat.le_refl _)

namespace Router

variable {H : Type}

/-- The route that a successful `BindRoute` gave the handler to: its pattern
source is the pattern of the fully-qualified template. -/
theorem bindRoute_registers (lib : RegexpLib) (r r' : Router H) (m t : String)
    (h : HandleContextFunc H) (hok : r.BindRoute lib m t h = .ok r') :
    ∃ rt ∈ r'.routes, rt.regex.source = routePattern r.groups t ∧ rt.handler m = h := by
  obtain ⟨re, hc, _, hcase⟩ := bindRoute_ok lib r r' m t h hok
  have hsrc : re.source = routePattern r.groups t := lib.source_eq _ _ hc
  rcases hcase with hex | ⟨_, rt', hbind, hroutes⟩
  · obtain ⟨i, rt, rt', hi, hrs, hbind, hset⟩ :=
      bindExisting_ok r.routes r'.routes re.source m h hex
    have hil : i < r.routes.length := (List.getElem?_eq_some_iff.mp hi).1
    refine ⟨rt', ?_, ?_, Route.bindHandler_handler_self hbind⟩
    · rw [hset]
      exact List.getElem?_mem (List.getElem?_set_self hil)
    · rw [Route.bindHandler_regex hbind]; exact hrs.trans hsrc
  · refine ⟨rt', ?_, ?_, Route.bindHandler_handler_self hbind⟩
    · rw [hroutes]; simp
    · rw [Route.bindHandler_regex hbind]; exact hsrc

/-- C12: the fully-qualified template of a `BindRoute`, the open groups
followed by the template, is a sequence of characters and placeholders
`{name}`, possibly ended by a `{` that is never closed; and the pattern source
of the route that `BindRoute` registers is `^`, then this text with every
`{name}` turned into `(?P<name>[^/#?]+)` and every other character copied, then
`/?$`. -/
theorem bindRoute_pattern (lib : RegexpLib) (r r' : Router H) (m t : String)
    (h : HandleContextFunc H) (hok : r.BindRoute lib m t h = .ok r') :
    (∃ (pieces : List Piece) (tail : List Char), (∀ p ∈ pieces, p.WellFormed) ∧
        (tail = [] ∨ ∃ u, tail = '{' :: u ∧ '}' ∉ u) ∧
        (String.join r.groups ++ t).toList = templateText pieces ++ tail) ∧
      ∀ (pieces : List Piece) (tail : List Char), (∀ p ∈ pieces, p.WellFormed) →
        (tail = [] ∨ ∃ u, tail = '{' :: u ∧ '}' ∉ u) →
        (String.join r.groups ++ t).toList = templateText pieces ++ tail →
        ∃ rt ∈ r'.routes, rt.handler m = h ∧
          rt.regex.source = "^" ++ String.mk (patternText pieces ++ tail) ++ "/?$" := by
  refine ⟨template_pieces _, ?_⟩
  intro pieces tail hwf htail htext
  obtain ⟨rt, hmem, hsrc, hh⟩ := bindRoute_registers lib r r' m t h hok
  refine ⟨rt, hmem, hh, ?_⟩
  rw [hsrc, routePattern, htext, expandPlaceholders_pieces _ _ hwf]
  rcases htail with rfl | ⟨u, rfl, hu⟩
  · simp [expandPlaceholders]
  · simp [expandPlaceholders, expandPlaceholders_unclosed _ _ hu]

/-- The second `BindRoute` of `Test_GroupRoute`: under the group
`/user/profile`, the template `/{profileID}` gives the pattern
`^/user/profile/(?P<profileID>[^/#?]+)/?$`. -/
theorem bindRoute_pattern_witness :
    profileRouter.BindRoute testLib "get" "/{profileID}" (some 2) = .ok profileRouter' ∧
      ∃ rt ∈ profileRouter'.routes, rt.handler "get" = some 2 ∧
        rt.regex.source = "^/user/profile/(?P<profileID>[^/#?]+)/?$" :=
  ⟨rfl,
    (bindRoute_pattern testLib profileRouter profileRouter' "get" "/{profileID}" (some 2)
      rfl).2
      (("/user/profile/".toList.map Piece.char) ++ [Piece.placeholder "profileID".toList])
      [] (by decide) (Or.inl rfl) (by decide)⟩

/-! ## Router.BindRoute on a new pattern -/

/-- C15: a `BindRoute` whose pattern no route has yet appends one route at the
end of the sequence, with this pattern and this handler alone, and leaves the
routes before it as they were, at their places. -/
theorem bindRoute_appends (lib : RegexpLib) (r r' : Router H) (m t : String)
    (h : HandleContextFunc H)
    (hnew : ∀ rt ∈ r.routes, rt.regex.source ≠ routePattern r.groups t)
    (hok : r.BindRoute lib m t h = .ok r') :
    ∃ rt, r'.routes = r.routes ++ [rt] ∧
      rt.regex.source = routePattern r.groups t ∧ rt.handler m = h ∧
      (∀ m2, m2 ≠ m → rt.handler m2 = none) ∧
      r'.routes.length = r.routes.length + 1 ∧
      ∀ (i : Nat), i < r.routes.length → r'.routes[i]? = r.routes[i]? := by
  obtain ⟨re, hc, _, hcase⟩ := bindRoute_ok lib r r' m t h hok
  have hsrc : re.source = routePattern r.groups t := lib.source_eq _ _ hc
  rcases hcase with hex | ⟨_, rt', hbind, hroutes⟩
  · obtain ⟨i, rt, rt', hi, hrs, _, _⟩ :=
      bindExisting_ok r.routes r'.routes re.source m h hex
    exact absurd (hrs.trans hsrc) (hnew rt (List.getElem?_mem hi))
  · refine ⟨rt', hroutes, ?_, Route.bindHandler_handler_self hbind, ?_, ?_, ?_⟩
    · rw [Route.bindHandler_regex hbind]; exact hsrc
    · intro m2 hne
      rw [Route.bindHandler_handler_other hbind hne]
      exact handler_of_empty re m2
    · rw [hroutes]; simp
    · intro i hi
      rw [hroutes, List.getElem?_append_left hi]

/-- The second `BindRoute` of `Test_GroupRoute` has a new pattern: the route
is appended after the route of `/user/profile`. -/
theorem bindRoute_appends_witness :
    (∀ rt ∈ profileRouter.routes,
        rt.regex.source ≠ routePattern profileRouter.groups "/{profileID}") ∧
      ∃ rt, profileRouter'.routes = profileRouter.routes ++ [rt] ∧
        rt.regex.source = routePattern profileRouter.groups "/{profileID}" ∧
        rt.handler "get" = some 2 ∧
        (∀ m2, m2 ≠ "get" → rt.handler m2 = none) ∧
        profileRouter'.routes.length = profileRouter.routes.length + 1 ∧
        ∀ (i : Nat), i < profileRouter.routes.length →
          profileRouter'.routes[i]? = profileRouter.routes[i]? :=
  ⟨by decide, bindRoute_appends testLib profileRouter profileRouter' "get" "/{profileID}"
    (some 2) (by decide) rfl⟩

end Router

/-! ## Router.GroupRoute -/

namespace Router

variable {H : Type}

theorem bindRoute_handler_some (lib : RegexpLib) (r r' : Router H) (m t : String)
    (h : HandleContextFunc H) (hok : r.BindRoute lib m t h = .ok r') : h ≠ none := by
  obtain ⟨re, _, _, hcase⟩ := bindRoute_ok lib r r' m t h hok
  rcases hcase with hex | ⟨_, rt', hbind, _⟩
  · obtain ⟨i, rt, rt', _, _, hbind, _⟩ :=
      bindExisting_ok r.routes r'.routes re.source m h hex
    exact (Route.bindHandler_ok hbind).1
  · exact (Route.bindHandler_ok hbind).1

/-- A successful `BindRoute` keeps every route, with its pattern and with the
handlers it had. -/
theorem bindRoute_preserves (lib : RegexpLib) (r r' : Router H) (m t : String)
    (h : HandleContextFunc H) (hok : r.BindRoute lib m t h = .ok r')
    (rt : Route H) (hrt : rt ∈ r.routes) :
    ∃ rt' ∈ r'.routes, rt'.regex = rt.regex ∧
      ∀ m2 f, rt.handler m2 = some f → rt'.handler m2 = some f := by
  obtain ⟨re, _, _, hcase⟩ := bindRoute_ok lib r r' m t h hok
  rcases hcase with hex | ⟨_, new, _, hroutes⟩
  · obtain ⟨i, x, x', hi, _, hbind, hset⟩ :=
      bindExisting_ok r.routes r'.routes re.source m h hex
    have hil : i < r.routes.length := (List.getElem?_eq_some_iff.mp hi).1
    obtain ⟨j, hj⟩ := List.getElem?_of_mem hrt
    by_cases hji : i = j
    · subst hji
      have hx : x = rt := by rw [hi] at hj; exact Option.some.inj hj
      subst hx
      refine ⟨x', ?_, Route.bindHandler_regex hbind, ?_⟩
      · rw [hset]; exact List.getElem?_mem (List.getElem?_set_self hil)
      · intro m2 f hf
        by_cases hm : m2 = m
        · subst hm
          rw [(Route.bindHandler_ok hbind).2.1] at hf
          cases hf
        · rw [Route.bindHandler_handler_other hbind hm]; exact hf
    · refine ⟨rt, ?_, rfl, fun _ _ hf => hf⟩
      rw [hset]
      exact List.getElem?_mem ((List.getElem?_set_ne hji).trans hj)
  · exact ⟨rt, by rw [hroutes]; exact List.mem_append_left _ hrt, rfl, fun _ _ hf => hf⟩

theorem bindings_groups (script : Script H) (groups : List String) (b : Binding H)
    (hb : b ∈ script.bindings groups) : groups.isPrefixOf b.groups = true := by
  induction script generalizing groups with
  | done => simp [Script.bindings] at hb
  | bind m t h next ih =>
    simp only [Script.bindings, List.mem_cons] at hb
    rcases hb with rfl | hb
    · simp
    · exact ih groups hb
  | group g body next ihb ihn =>
    simp only [Script.bindings, List.mem_append] at hb
    rcases hb with hb | hb
    · have := ihb (groups ++ [g]) hb
      rw [List.isPrefixOf_iff_prefix] at this ⊢
      exact (List.prefix_append groups [g]).trans this
    · exact ihn groups hb

theorem run_groups (lib : RegexpLib) (script : Script H) (r r' : Router H)
    (hrun : script.run lib r = .ok r') : r'.groups = r.groups := by
  induction script generalizing r r' with
  | done =>
    simp only [Script.run] at hrun
    cases hrun; rfl
  | bind m t h next ih =>
    simp only [Script.run] at hrun
    cases hb : r.BindRoute lib m t h with
    | error e => simp [hb] at hrun
    | ok r1 =>
      simp only [hb] at hrun
      obtain ⟨_, _, hg, _⟩ := bindRoute_ok lib r r1 m t h hb
      rw [ih r1 r' hrun, hg]
  | group g body next ihb ihn =>
    simp only [Script.run, GroupRoute] at hrun
    cases hb : body.run lib { r with groups := r.groups ++ [g] } with
    | error e => simp [hb] at hrun
    | ok r1 =>
      simp only [hb] at hrun
      rw [ihn _ r' hrun]
      have := ihb _ r1 hb
      simp [this]

theorem run_preserves (lib : RegexpLib) (script : Script H) (r r' : Router H)
    (hrun : script.run lib r = .ok r') (rt : Route H) (hrt : rt ∈ r.routes) :
    ∃ rt' ∈ r'.routes, rt'.regex = rt.regex ∧
      ∀ m2 f, rt.handler m2 = some f → rt'.handler m2 = some f := by
  induction script generalizing r r' rt with
  | done =>
    simp only [Script.run] at hrun
    cases hrun
    exact ⟨rt, hrt, rfl, fun _ _ hf => hf⟩
  | bind m t h next ih =>
    simp only [Script.run] at hrun
    cases hb : r.BindRoute lib m t h with
    | error e => simp [hb] at hrun
    | ok r1 =>
      simp only [hb] at hrun
      obtain ⟨rt1, hmem1, hre1, hh1⟩ := bindRoute_preserves lib r r1 m t h hb rt hrt
      obtain ⟨rt2, hmem2, hre2, hh2⟩ := ih r1 r' hrun rt1 hmem1
      exact ⟨rt2, hmem2, hre2.trans hre1, fun m2 f hf => hh2 m2 f (hh1 m2 f hf)⟩
  | group g body next ihb ihn =>
    simp only [Script.run, GroupRoute] at hrun
    cases hb : body.run lib { r with groups := r.groups ++ [g] } with
    | error e => simp [hb] at hrun
    | ok r1 =>
      simp only [hb] at hrun
      obtain ⟨rt1, hmem1, hre1, hh1⟩ := ihb _ r1 hb rt hrt
      obtain ⟨rt2, hmem2, hre2, hh2⟩ := ihn _ r' hrun rt1 hmem1
      exact ⟨rt2, hmem2, hre2.trans hre1, fun m2 f hf => hh2 m2 f (hh1 m2 f hf)⟩

/-- A registration that succeeded has no `BindRoute` with a nil handler. -/
theorem run_bindings_handler (lib : RegexpLib) (script : Script H) (r r' : Router H)
    (hrun : script.run lib r = .ok r') (groups : List String) (b : Binding H)
    (hb : b ∈ script.bindings groups) : b.handler ≠ none := by
  induction script generalizing r r' groups with
  | done => simp [Script.bindings] at hb
  | bind m t h next ih =>
    simp only [Script.run] at hrun
    cases hbr : r.BindRoute lib m t h with
    | error e => simp [hbr] at hrun
    | ok r1 =>
      simp only [hbr] at hrun
      simp only [Script.bindings, List.mem_cons] at hb
      rcases hb with rfl | hb
      · exact bindRoute_handler_some lib r r1 m t h hbr
      · exact ih r1 r' hrun groups hb
  | group g body next ihb ihn =>
    simp only [Script.run, GroupRoute] at hrun
    cases hbr : body.run lib { r with groups := r.groups ++ [g] } with
    | error e => simp [hbr] at hrun
    | ok r1 =>
      simp only [hbr] at hrun
      simp only [Script.bindings, List.mem_append] at hb
      rcases hb with hb | hb
      · exact ihb _ r1 hbr _ hb
      · exact ihn _ r' hrun _ hb

/-- Every `BindRoute` of a registration that succeeded is on a route whose
pattern is the pattern of its enclosing groups and its template. -/
theorem run_bindings (lib : RegexpLib) (script : Script H) (r r' : Router H)
    (hrun : script.run lib r = .ok r') (b : Binding H)
    (hb : b ∈ script.bindings r.groups) :
    ∃ rt ∈ r'.routes, rt.regex.source = routePattern b.groups b.template ∧
      rt.handler b.method = b.handler := by
  obtain ⟨f, hf⟩ := Option.ne_none_iff_exists'.mp
    (run_bindings_handler lib script r r' hrun r.groups b hb)
  induction script generalizing r r' with
  | done => simp [Script.bindings] at hb
  | bind m t h next ih =>
    simp only [Script.run] at hrun
    cases hbr : r.BindRoute lib m t h with
    | error e => simp [hbr] at hrun
    | ok r1 =>
      simp only [hbr] at hrun
      obtain ⟨_, _, hg, _⟩ := bindRoute_ok lib r r1 m t h hbr
      simp only [Script.bindings, List.mem_cons] at hb
      rcases hb with rfl | hb
      · obtain ⟨rt, hmem, hsrc, hh⟩ := bindRoute_registers lib r r1 m t h hbr
        obtain ⟨rt2, hmem2, hre2, hh2⟩ := run_preserves lib next r1 r' hrun rt hmem
        have hf' : h = some f := hf
        refine ⟨rt2, hmem2, by rw [hre2]; exact hsrc, ?_⟩
        show rt2.handler m = h
        rw [hf']
        exact hh2 m f (by rw [hh, hf'])
      · exact ih r1 r' hrun (by rw [hg]; exact hb)
  | group g body next ihb ihn =>
    simp only [Script.run, GroupRoute] at hrun
    cases hbr : body.run lib { r with groups := r.groups ++ [g] } with
    | error e => simp [hbr] at hrun
    | ok r1 =>
      simp only [hbr] at hrun
      have hg1 : r1.groups = r.groups ++ [g] := run_groups lib body _ r1 hbr
      simp only [Script.bindings, List.mem_append] at hb
      rcases hb with hb | hb
      · obtain ⟨rt, hmem, hsrc, hh⟩ := ihb _ r1 hbr hb
        obtain ⟨rt2, hmem2, hre2, hh2⟩ := run_preserves lib next _ r' hrun rt hmem
        exact ⟨rt2, hmem2, by rw [hre2]; exact hsrc,
          by rw [hf]; exact hh2 b.method f (by rw [hh, hf])⟩
      · exact ihn _ r' hrun (by simpa [hg1] using hb)

/-- C14: after `GroupRoute(g, body)` has returned, the stack of groups is the
stack before the call; every `BindRoute` of the body, at any depth, is on a
route whose pattern is that of its enclosing groups, in nesting order, and its
template; and a `BindRoute` after the group is on a route whose pattern does not
have the group. -/
theorem groupRoute_scope (lib : RegexpLib) (r r' : Router H) (g : String)
    (body : Script H) (hrun : r.GroupRoute g (body.run lib) = .ok r') :
    r'.groups = r.groups ∧
      (∀ b ∈ body.bindings (r.groups ++ [g]),
        (r.groups ++ [g]).isPrefixOf b.groups = true ∧
        ∃ rt ∈ r'.routes,
          rt.regex.source = routePattern b.groups b.template ∧
          rt.handler b.method = b.handler) ∧
      ∀ (m t : String) (h : HandleContextFunc H) (r2 : Router H),
        r'.BindRoute lib m t h = .ok r2 →
        ∃ rt ∈ r2.routes, rt.regex.source = routePattern r.groups t ∧
          rt.handler m = h := by
  simp only [GroupRoute] at hrun
  cases hbr : body.run lib { r with groups := r.groups ++ [g] } with
  | error e => simp [hbr] at hrun
  | ok r1 =>
    simp only [hbr] at hrun
    have hr' : r' = { r1 with groups := r1.groups.dropLast } := by
      injection hrun with h; exact h.symm
    have hg1 : r1.groups = r.groups ++ [g] := run_groups lib body _ r1 hbr
    have hg' : r'.groups = r.groups := by rw [hr']; simp [hg1]
    refine ⟨hg', ?_, ?_⟩
    · intro b hb
      refine ⟨bindings_groups body _ b hb, ?_⟩
      obtain ⟨rt, hmem, hsrc, hh⟩ := run_bindings lib body _ r1 hbr b hb
      exact ⟨rt, by rw [hr']; exact hmem, hsrc, hh⟩
    · intro m t h r2 hok
      have := bindRoute_registers lib r' r2 m t h hok
      rw [hg'] at this
      exact this

/-- The group `/user` holds the group `/profile` with `get /{profileID}`, and
then `get /profile`: the first is registered under `/user/profile/{profileID}`,
the second under `/user/profile`, the stack of groups is empty again and a
`BindRoute` of `/sample` after the group is registered under `/sample`. -/
theorem groupRoute_scope_witness :
    Router.empty.GroupRoute "/user" (nestedBody.run testLib) = .ok nestedRouter ∧
      nestedRouter.groups = [] ∧
      (∃ rt ∈ nestedRouter.routes,
        rt.regex.source = routePattern ["/user", "/profile"] "/{profileID}" ∧
        rt.handler "get" = some 2) ∧
      (∃ rt ∈ nestedRouter.routes,
        rt.regex.source = routePattern ["/user"] "/profile" ∧
        rt.handler "get" = some 1) ∧
      ∀ r2, nestedRouter.BindRoute testLib "get" "/sample" (some 5) = .ok r2 →
        ∃ rt ∈ r2.routes, rt.regex.source = routePattern [] "/sample" ∧
          rt.handler "get" = some 5 :=
  ⟨rfl,
    (groupRoute_scope testLib Router.empty nestedRouter "/user" nestedBody rfl).1,
    ((groupRoute_scope testLib Router.empty nestedRouter "/user" nestedBody rfl).2.1
      { groups := ["/user", "/profile"], template := "/{profileID}", method := "get",
        handler := some 2 }
      (by simp [nestedBody, Script.bindings, Router.empty])).2,
    ((groupRoute_scope testLib Router.empty nestedRouter "/user" nestedBody rfl).2.1
      { groups := ["/user"], template := "/profile", method := "get", handler := some 1 }
      (by simp [nestedBody, Script.bindings, Router.empty])).2,
    fun r2 hr2 =>
      (groupRoute_scope testLib Router.empty nestedRouter "/user" nestedBody rfl).2.2
        "get" "/sample" (some 5) r2 hr2⟩

end Router

/-! ## CreateContext: the unified parameter map -/

theorem set_ne_nil {V : Type} (m : GoMap V) (k : String) (v : V) : m.set k v ≠ [] := by
  cases m with
  | nil => simp [GoMap.set]
  | cons e rest =>
    obtain ⟨k', v'⟩ := e
    by_cases hk : k' = k <;> simp [GoMap.set, hk]

theorem mergeEntries_some (m : GoMap String) (es : List (String × String)) (hm : m ≠ []) :
    ∃ m', mergeEntries (some m) es = some m' ∧ m' ≠ [] := by
  induction es generalizing m with
  | nil => exact ⟨m, rfl, hm⟩
  | cons e rest ih =>
    obtain ⟨k, v⟩ := e
    simp only [mergeEntries]
    exact ih _ (set_ne_nil m k v)

theorem mergeEntries_none (es : List (String × String)) :
    (es = [] ∧ mergeEntries none es = none) ∨
      ∃ m', mergeEntries none es = some m' ∧ m' ≠ [] := by
  cases es with
  | nil => exact Or.inl ⟨rfl, rfl⟩
  | cons e rest =>
    obtain ⟨k, v⟩ := e
    right
    simp only [mergeEntries]
    exact mergeEntries_some _ rest (set_ne_nil [] k v)

/-- C16: the unified parameter map of the context that `CreateContext` builds
is nil or has an entry; it is nil when the query string has no entry and the
body adds none, which is the case of every request without a body. -/
theorem createContext_queryParams (lib : FormLib) (req : Request) :
    ((CreateContext lib req).QueryParams = none ∨
        ∃ m, (CreateContext lib req).QueryParams = some m ∧ m.length ≥ 1) ∧
      (lib.parseQuery req.rawQuery = [] →
        bodyEntries lib req (((headerMap req.header []).get? "content-type").getD "") = [] →
        (CreateContext lib req).QueryParams = none) ∧
      (req.body = none → ∀ contentType, bodyEntries lib req contentType = []) := by
  refine ⟨?_, ?_, ?_⟩
  · simp only [CreateContext]
    rcases mergeEntries_none (lib.parseQuery req.rawQuery) with ⟨_, hq⟩ | ⟨m, hq, hm⟩
    · rw [hq]
      rcases mergeEntries_none
        (bodyEntries lib req (((headerMap req.header []).get? "content-type").getD ""))
        with ⟨_, hb⟩ | ⟨m', hb, hm'⟩
      · exact Or.inl hb
      · exact Or.inr ⟨m', hb, List.length_pos.mpr hm'⟩
    · rw [hq]
      obtain ⟨m', hb, hm'⟩ := mergeEntries_some m
        (bodyEntries lib req (((headerMap req.header []).get? "content-type").getD "")) hm
      exact Or.inr ⟨m', hb, List.length_pos.mpr hm'⟩
  · intro hq hb
    simp only [CreateContext, hq, hb, mergeEntries]
  · intro hbody contentType
    simp [bodyEntries, hbody]

/-- The four requests of the tests of `CreateContext`: without query string
and body the map is nil, also for a form `POST`; with `userID=1&profileID=2` as
query string or as form body the map has these two entries. -/
theorem createContext_tests :
    (CreateContext plainFormLib getRequest).QueryParams = none ∧
      (CreateContext plainFormLib getRequest).PathParams = none ∧
      (CreateContext plainFormLib getRequest).Header
        = [("user-agent", "go-http-client/1.1"), ("accept-encoding", "gzip")] ∧
      (CreateContext plainFormLib getQueryRequest).QueryParams
        = some [("userID", "1"), ("profileID", "2")] ∧
      (CreateContext plainFormLib postFormRequest).QueryParams = none ∧
      (CreateContext plainFormLib postFormRequest).Header.get? "content-type"
        = some "application/x-www-form-urlencoded" ∧
      (CreateContext plainFormLib postFormDataRequest).QueryParams
        = some [("userID", "1"), ("profileID", "2")] := by
  refine ⟨?_, ?_, ?_, ?_, ?_, ?_, ?_⟩ <;> decide

/-! ## Templates without placeholders -/

theorem expandPlaceholders_plain (cs : List Char) (h : '{' ∉ cs) :
    expandPlaceholders cs none = cs := by
  induction cs with
  | nil => rfl
  | cons c rest ih =>
    have hc : c ≠ '{' := fun e => h (e ▸ List.mem_cons_self _ _)
    have hr : '{' ∉ rest := fun e => h (List.mem_cons_of_mem _ e)
    simp only [expandPlaceholders, hc, if_false, ih hr]

theorem routePattern_plain (t : String) (h : '{' ∉ t.toList) :
    routePattern [] t = "^" ++ t ++ "/?$" := by
  have hjoin : (String.join [] ++ t) = t := by
    apply String.ext
    simp [String.join]
  rw [routePattern, hjoin, expandPlaceholders_plain _ h]
  rfl

theorem not_operator_brace (t : String) (hlit : ∀ c ∈ t.toList, isOperator c = false) :
    '{' ∉ t.toList := by
  intro hmem
  have := hlit _ hmem
  revert this
  decide

theorem literalOf_pattern (lit : String) : literalOf ("^" ++ lit ++ "/?$") = lit := by
  apply String.ext
  simp [literalOf]

theorem literalLib_literalPatterns : literalLib.LiteralPatterns := by
  intro lit hlit
  refine ⟨literalRegexp lit, ?_, rfl, fun p => rfl⟩
  show (if _ then _ else _) = _
  rw [literalOf_pattern]
  have hall : lit.toList.all (fun c => !isOperator c) = true := by
    rw [List.all_eq_true]
    intro c hc
    simp [hlit c hc]
  rw [if_pos ⟨hall, rfl⟩]

namespace Route

variable {H : Type}

theorem match_fst_iff (r : Route H) (method path : String) :
    (r.Match method path).1 = true ↔
      (∃ groups, r.regex.findStringSubmatch path = path :: groups) ∧
        r.handler method ≠ none := by
  have hfull := fullMatch_iff r.regex path
  unfold Regexp.FullMatch at hfull
  rw [hfull, match_eq_ite]
  by_cases hc : ((r.regex.findStringSubmatch path).length > 0 ∧
      (r.regex.findStringSubmatch path).head? = some path) ∧
      (r.handler method).isSome = true
  · simp only [if_pos hc, true_iff]
    exact ⟨hc.1, fun hn => by simp [hn] at hc⟩
  · simp only [if_neg hc, Bool.false_eq_true, false_iff]
    rintro ⟨h1, h2⟩
    exact hc ⟨h1, Option.isSome_iff_ne_none.mpr h2⟩

end Route

namespace Router

variable {H : Type}

/-- C11, for templates without operators: the route that `BindRoute` compiles
from a template with no placeholder and no regexp operator, with a handler for
the method, matches a path exactly when the path is the template or the template
followed by one `/`. -/
theorem literal_template_match (lib : RegexpLib) (hlib : lib.LiteralPatterns)
    (t m : String) (f : H) (hlit : ∀ c ∈ t.toList, isOperator c = false) :
    ∃ rt : Route H,
      Router.empty.BindRoute lib m t (some f) = .ok { routes := [rt], groups := [] } ∧
      rt.regex.source = "^" ++ t ++ "/?$" ∧
      ∀ p, (rt.Match m p).1 = true ↔ (p = t ∨ p = t ++ "/") := by
  obtain ⟨re, hc, _, hfind⟩ := hlib t hlit
  have hpat : routePattern (Router.empty : Router H).groups t = "^" ++ t ++ "/?$" :=
    routePattern_plain t (not_operator_brace t hlit)
  refine ⟨{ regex := re, handlers := GoMap.set [] m (some f) }, ?_, ?_, ?_⟩
  · rw [bindRoute_eq lib Router.empty m t (some f) re (by rw [hpat]; exact hc)]
    simp [Router.empty, bindExisting, Route.BindHandler, Route.handler, GoMap.get?]
  · exact lib.source_eq _ _ hc
  · intro p
    rw [Route.match_fst_iff]
    have hbound : ({ regex := re, handlers := GoMap.set [] m (some f) } : Route H).handler m
        ≠ none := by
      simp [Route.handler, GoMap.get?_set_self]
    constructor
    · rintro ⟨⟨groups, hg⟩, _⟩
      have := hfind p
      rw [hg] at this
      by_contra hne
      rw [if_neg hne] at this
      cases this
    · intro hp
      refine ⟨⟨[], ?_⟩, hbound⟩
      show re.findStringSubmatch p = [p]
      rw [hfind p, if_pos hp]

/-- The template `/sample` of the tests: the route matches `/sample` and
`/sample/` and nothing else. -/
theorem literal_template_match_witness :
    (∀ c ∈ "/sample".toList, isOperator c = false) ∧
      ∃ rt : Route Nat,
        Router.empty.BindRoute literalLib "get" "/sample" (some 1)
          = .ok { routes := [rt], groups := [] } ∧
        rt.regex.source = "^" ++ "/sample" ++ "/?$" ∧
        ∀ p, (rt.Match "get" p).1 = true ↔ (p = "/sample" ∨ p = "/sample" ++ "/") :=
  ⟨by decide,
    literal_template_match literalLib literalLib_literalPatterns "/sample" "get" 1
      (by decide)⟩

/-- C11 fails as stated on the template `/user/profile(.htm[l]?)?` of the
tests, which has no placeholder: its route matches `/user/profile.htm`, which
is neither the template nor the template with a `/`, and does not match the
template itself. -/
theorem regexp_template_match :
    ∃ rt : Route Nat,
      Router.empty.BindRoute testLib "get" "/user/profile(.htm[l]?)?" (some 1)
        = .ok { routes := [rt], groups := [] } ∧
      (rt.Match "get" "/user/profile.htm").1 = true ∧
      "/user/profile.htm" ≠ "/user/profile(.htm[l]?)?" ∧
      "/user/profile.htm" ≠ "/user/profile(.htm[l]?)?" ++ "/" ∧
      (rt.Match "get" "/user/profile(.htm[l]?)?").1 = false :=
  ⟨{ regex := profileHtmRegexp, handlers := [("get", some 1)] }, rfl,
    by decide, by decide, by decide, by decide⟩

end Router

/-! ## The values of the path parameters -/

namespace Route

variable {H : Type}

/-- An entry of the map that the loop of `Match` fills was there before, or is
the text of a subexpression with this name. -/
theorem get?_fillParams_cases (ms names : List String) (s : Nat) (acc : GoMap String)
    (k v : String) (h : (fillParams ms names s acc).get? k = some v) :
    acc.get? k = some v ∨
      ∃ j, names[j]? = some k ∧ k ≠ "" ∧ v = ms.getD (s + j) "" := by
  induction names generalizing s acc with
  | nil => exact Or.inl (by simpa [fillParams] using h)
  | cons n rest ih =>
    by_cases hn : n.length > 0
    · simp only [fillParams, hn, if_true] at h
      rcases ih (s + 1) _ h with h1 | ⟨j, hj, hk, hv⟩
      · by_cases hkn : k = n
        · subst hkn
          rw [GoMap.get?_set_self] at h1
          exact Or.inr ⟨0, by simp, (length_pos_iff k).mp hn,
            by simpa using (Option.some.inj h1).symm⟩
        · rw [GoMap.get?_set_other _ _ _ _ hkn] at h1
          exact Or.inl h1
      · exact Or.inr ⟨j + 1, by simpa using hj, hk, by rw [hv]; congr 1; omega⟩
    · simp only [fillParams, hn, if_false] at h
      rcases ih (s + 1) _ h with h1 | ⟨j, hj, hk, hv⟩
      · exact Or.inl h1
      · exact Or.inr ⟨j + 1, by simpa using hj, hk, by rw [hv]; congr 1; omega⟩

/-- The values of the parameter map of a successful `Match` are texts of
groups of index 1 or more, the whole match having the empty name: when every
such text is one or more characters other than `/`, `#`, `?`, so is every
value. -/
theorem match_params_segments (r : Route H) (method path : String)
    (hgroups : r.regex.SegmentGroups)
    (hok : (r.Match method path).1 = true) :
    ∀ m, (r.Match method path).2 = some m →
      ∀ name value, m.get? name = some value →
        value ≠ "" ∧ '/' ∉ value.toList ∧ '#' ∉ value.toList ∧ '?' ∉ value.toList := by
  intro m hm name value hval
  rw [match_eq_ite] at hok hm
  by_cases hc : ((r.regex.findStringSubmatch path).length > 0 ∧
      (r.regex.findStringSubmatch path).head? = some path) ∧
      (r.handler method).isSome = true
  · simp only [if_pos hc] at hm
    have hlen : (r.regex.findStringSubmatch path).length = r.regex.subexpNames.length := by
      rcases r.regex.submatch_length path with h | h
      · have := hc.1.1; simp [h] at this
      · exact h
    by_cases hmany : r.regex.subexpNames.length > 1
    · simp only [if_pos hmany, Option.some.injEq] at hm
      subst hm
      rcases get?_fillParams_cases _ _ 0 [] name value hval with h0 | ⟨j, hj, hne, hv⟩
      · simp [GoMap.get?] at h0
      · have hjpos : 0 < j := by
          rcases Nat.eq_zero_or_pos j with h0 | hpos
          · subst h0
            have hhead := r.regex.names_head
            rw [List.head?_eq_getElem?, hj] at hhead
            exact absurd (Option.some.inj hhead) hne
          · exact hpos
        have hjlt : j < (r.regex.findStringSubmatch path).length := by
          rw [hlen]; exact (List.getElem?_eq_some_iff.mp hj).1
        have hget : (r.regex.findStringSubmatch path)[j]? = some value := by
          rw [hv, List.getElem?_eq_getElem hjlt]
          simp [List.getD, List.getElem?_eq_getElem hjlt]
        have hseg := hgroups path j value hjpos hget
        simp only [isSegment, Bool.and_eq_true, Bool.not_eq_true', List.all_eq_true] at hseg
        obtain ⟨hnonempty, hall⟩ := hseg
        refine ⟨?_, ?_, ?_, ?_⟩
        · intro hempty
          rw [hempty] at hnonempty
          simp at hnonempty
        · intro hmem
          have := hall _ hmem
          simp [segmentChar] at this
        · intro hmem
          have := hall _ hmem
          simp [segmentChar] at this
        · intro hmem
          have := hall _ hmem
          simp [segmentChar] at this
    · simp [if_neg hmany] at hm
  · simp [if_neg hc] at hok

theorem profileID_segmentGroups : profileIDRegexp.SegmentGroups := by
  intro p i text hi hget
  have hfind : profileIDRegexp.findStringSubmatch p = profileIDFind p := rfl
  rw [hfind] at hget
  unfold profileIDFind at hget
  split at hget
  · split at hget
    · rename_i hseg
      match i, hi with
      | 1, _ =>
        simp at hget
        rw [← hget]
        exact hseg
      | j + 2, _ => simp at hget
    · simp at hget
  · simp at hget

/-- The route `/user/profile/{profileID}` on `/user/profile/1`: the values of
the map are segments. -/
theorem match_params_segments_witness :
    profileIDRoute.regex.SegmentGroups ∧
      (profileIDRoute.Match "get" "/user/profile/1").1 = true ∧
      (profileIDRoute.Match "get" "/user/profile/1").2 = some [("profileID", "1")] ∧
      ∀ name value, GoMap.get? [("profileID", "1")] name = some value →
        value ≠ "" ∧ '/' ∉ value.toList ∧ '#' ∉ value.toList ∧ '?' ∉ value.toList :=
  ⟨profileID_segmentGroups, by decide, by decide,
    match_params_segments profileIDRoute "get" "/user/profile/1" profileID_segmentGroups
      (by decide) [("profileID", "1")] (by decide)⟩

end Route

/-! ## Templates of characters and placeholders: the parameter values -/

theorem takeWhile_append_stop (f : Char → Bool) (name tl : List Char) (d : Char)
    (hname : ∀ c ∈ name, f c = true) (hd : f d = false) :
    (name ++ d :: tl).takeWhile f = name ∧ (name ++ d :: tl).dropWhile f = d :: tl := by
  induction name with
  | nil => simp [List.takeWhile, List.dropWhile, hd]
  | cons c cs ih =>
    have hc : f c = true := hname c (List.mem_cons_self _ _)
    have hcs : ∀ x ∈ cs, f x = true := fun x hx => hname x (List.mem_cons_of_mem _ hx)
    obtain ⟨h1, h2⟩ := ih hcs
    simp [List.takeWhile, List.dropWhile, hc, h1, h2]

theorem valid_wellFormed (p : Piece) (h : p.valid = true) : p.WellFormed := by
  cases p with
  | char c =>
    show c ≠ '{'
    intro hc
    subst hc
    revert h
    decide
  | placeholder name =>
    show '}' ∉ name
    intro hmem
    simp only [Piece.valid, Bool.and_eq_true, List.all_eq_true] at h
    have := h.2 _ hmem
    revert this
    decide

theorem patternText_length_placeholder (name : List Char) (rest : List Piece) :
    (patternText (.placeholder name :: rest)).length
      = 4 + name.length + 9 + (patternText rest).length := by
  simp [patternText]
  omega

/-- The text of the pattern of valid parts is read back as these parts. -/
theorem parsePieces_patternText (pieces : List Piece)
    (hvalid : ∀ p ∈ pieces, p.valid = true) :
    ∀ n, (patternText pieces).length ≤ n →
      parsePieces n (patternText pieces) = some pieces := by
  induction pieces with
  | nil =>
    intro n _
    cases n <;> simp [patternText, parsePieces]
  | cons p rest ih =>
    have hrest : ∀ q ∈ rest, q.valid = true := fun q hq => hvalid q (List.mem_cons_of_mem _ hq)
    have hp : p.valid = true := hvalid p (List.mem_cons_self _ _)
    intro n hn
    cases p with
    | char c =>
      have hop : isOperator c = false := by simpa [Piece.valid] using hp
      have hparen : c ≠ '(' := by
        intro hc; subst hc; revert hop; decide
      cases n with
      | zero => simp [patternText] at hn
      | succ n =>
        have hn' : (patternText rest).length ≤ n := by
          simp [patternText] at hn; exact hn
        simp only [patternText, parsePieces, hparen, if_false, hop, Bool.false_eq_true,
          ih hrest n hn']
    | placeholder name =>
      simp only [Piece.valid, Bool.and_eq_true, List.all_eq_true, Bool.not_eq_true',
        List.isEmpty_eq_false] at hp
      obtain ⟨hne, hall⟩ := hp
      cases n with
      | zero =>
        rw [patternText_length_placeholder] at hn
        omega
      | succ n =>
        have hn' : (patternText rest).length ≤ n := by
          rw [patternText_length_placeholder] at hn
          omega
        have htext : patternText (.placeholder name :: rest)
            = '(' :: ("?P<".toList ++ (name ++ '>' :: ("[^/#?]+)".toList ++ patternText rest))) := by
          simp [patternText]
        have hstop : nameChar '>' = false := by decide
        obtain ⟨htake, hdrop⟩ := takeWhile_append_stop nameChar name
          ("[^/#?]+)".toList ++ patternText rest) '>' hall hstop
        have hdrop3 : ("?P<".toList ++ (name ++ '>' :: ("[^/#?]+)".toList ++ patternText rest))).drop 3
            = name ++ '>' :: ("[^/#?]+)".toList ++ patternText rest) := by
          simp
        rw [htext]
        simp only [parsePieces, if_true]
        rw [hdrop3, htake, hdrop]
        have hcond : "?P<".toList.isPrefixOf
              ("?P<".toList ++ (name ++ '>' :: ("[^/#?]+)".toList ++ patternText rest))) = true ∧
            (!name.isEmpty) = true ∧
            ">[^/#?]+)".toList.isPrefixOf ('>' :: ("[^/#?]+)".toList ++ patternText rest)) = true := by
          refine ⟨by simp, ?_, by simp⟩
          cases name with
          | nil => exact absurd rfl hne
          | cons a as => rfl
        rw [if_pos hcond]
        have hdrop9 : ('>' :: ("[^/#?]+)".toList ++ patternText rest)).drop 9 = patternText rest := by
          simp
        rw [hdrop9, ih hrest n hn']

theorem isSegment_take (input : List Char) (j : Nat) (hj : 0 < j)
    (hle : j ≤ (input.takeWhile segmentChar).length) :
    isSegment (input.take j) = true := by
  have hsplit := List.takeWhile_append_dropWhile segmentChar input
  have htake : input.take j = (input.takeWhile segmentChar).take j := by
    conv_lhs => rw [← hsplit]
    exact List.take_append_of_le_length hle
  have hne : input.take j ≠ [] := by
    rw [htake]
    intro h
    have hlen : ((input.takeWhile segmentChar).take j).length = j := by
      rw [List.length_take]; exact Nat.min_eq_left hle
    rw [h] at hlen
    simp at hlen
    omega
  simp only [isSegment, Bool.and_eq_true, Bool.not_eq_true', List.all_eq_true]
  refine ⟨by simpa using hne, ?_⟩
  intro c hc
  rw [htake] at hc
  exact List.mem_takeWhile_imp (List.mem_of_mem_take hc)

theorem trySegment_segments (cont : List Char → Option (List String))
    (hcont : ∀ input texts, cont input = some texts →
      ∀ text ∈ texts, isSegment text.toList = true)
    (input : List Char) (k : Nat) (hk : k ≤ (input.takeWhile segmentChar).length)
    (texts : List String) (h : trySegment cont input k = some texts) :
    ∀ text ∈ texts, isSegment text.toList = true := by
  induction k with
  | zero => simp [trySegment] at h
  | succ k ih =>
    simp only [trySegment] at h
    cases hc : cont (input.drop (k + 1)) with
    | none =>
      rw [hc] at h
      exact ih (Nat.le_of_succ_le hk) h
    | some rest =>
      rw [hc] at h
      cases h
      intro text htext
      rcases List.mem_cons.mp htext with rfl | hmem
      · exact isSegment_take input (k + 1) (Nat.succ_pos k) hk
      · exact hcont _ _ hc text hmem

theorem matchPieces_segments (pieces : List Piece) (input : List Char)
    (texts : List String) (h : matchPieces pieces input = some texts) :
    ∀ text ∈ texts, isSegment text.toList = true := by
  induction pieces generalizing input texts with
  | nil =>
    simp only [matchPieces] at h
    split at h
    · cases h; simp
    · cases h
  | cons p rest ih =>
    cases p with
    | char c =>
      cases input with
      | nil => simp [matchPieces] at h
      | cons d ds =>
        simp only [matchPieces] at h
        split at h
        · exact ih ds texts h
        · cases h
    | placeholder name =>
      simp only [matchPieces] at h
      exact trySegment_segments (matchPieces rest) (fun i t hi => ih i t hi) input _
        (Nat.le_refl _) texts h

theorem literalOf_mk (body : List Char) :
    literalOf ("^" ++ String.mk body ++ "/?$") = String.mk body := by
  apply String.ext
  simp [literalOf]

/-- The library of the placeholder patterns computes what `PlaceholderPatterns`
says. -/
theorem placeholderLib_placeholderPatterns : placeholderLib.PlaceholderPatterns := by
  intro pieces hvalid
  refine ⟨pieceRegexp ("^" ++ String.mk (patternText pieces) ++ "/?$") pieces, ?_, rfl, ?_⟩
  · show (if _ then _ else _) = _
    rw [literalOf_mk, if_pos rfl]
    show (match parsePieces (patternText pieces).length (patternText pieces) with
      | some pieces' => _
      | none => _) = _
    rw [parsePieces_patternText pieces hvalid _ (Nat.le_refl _)]
  · intro p
    show pieceFind pieces p = [] ∨ _
    unfold pieceFind
    cases hm : matchPieces pieces p.toList with
    | none => exact Or.inl rfl
    | some texts =>
      refine Or.inr ⟨texts, ?_, matchPieces_segments pieces _ texts hm⟩
      show pieceFind pieces p = p :: texts
      unfold pieceFind
      rw [hm]

namespace Route

variable {H : Type}

/-- The values of the parameter map of a successful `Match` are texts of
groups: when the library gives every group a segment, they are segments. -/
theorem match_values_segments (r : Route H) (method path : String)
    (hgroups : ∀ p, r.regex.findStringSubmatch p = [] ∨
      ∃ texts, r.regex.findStringSubmatch p = p :: texts ∧
        ∀ text ∈ texts, isSegment text.toList = true)
    (hok : (r.Match method path).1 = true) :
    ∀ m, (r.Match method path).2 = some m →
      ∀ name value, m.get? name = some value →
        value ≠ "" ∧ '/' ∉ value.toList ∧ '#' ∉ value.toList ∧ '?' ∉ value.toList := by
  apply match_params_segments r method path _ hok
  intro p i text hi hget
  rcases hgroups p with hnil | ⟨texts, htexts, hseg⟩
  · rw [hnil] at hget; simp at hget
  · rw [htexts] at hget
    cases i with
    | zero => exact absurd hi (Nat.lt_irrefl 0)
    | succ j =>
      rw [List.getElem?_cons_succ] at hget
      exact hseg text (List.getElem?_mem hget)

end Route

namespace Router

variable {H : Type}

/-- C13: the route that `BindRoute` compiles from a template made of
characters that are no regexp operators and of placeholders `{name}` has the
pattern in which every placeholder is the group `(?P<name>[^/#?]+)`; and on every
path on which its `Match` succeeds, every value of the parameter map is not
empty and has none of `/`, `#`, `?`. -/
theorem placeholder_template_params (lib : RegexpLib) (hlib : lib.PlaceholderPatterns)
    (groups : List String) (t m : String) (f : H) (pieces : List Piece)
    (hvalid : ∀ p ∈ pieces, p.valid = true)
    (htext : (String.join groups ++ t).toList = templateText pieces) :
    ∃ rt : Route H,
      ({ routes := [], groups := groups } : Router H).BindRoute lib m t (some f)
        = .ok { routes := [rt], groups := groups } ∧
      rt.regex.source = "^" ++ String.mk (patternText pieces) ++ "/?$" ∧
      rt.regex.subexpNames = "" :: groupNames pieces ∧
      ∀ method path, (rt.Match method path).1 = true →
        ∀ params, (rt.Match method path).2 = some params →
          ∀ name value, params.get? name = some value →
            value ≠ "" ∧ '/' ∉ value.toList ∧ '#' ∉ value.toList ∧
              '?' ∉ value.toList := by
  obtain ⟨re, hc, hnames, hsem⟩ := hlib pieces hvalid
  have hwf : ∀ p ∈ pieces, p.WellFormed := fun p hp => valid_wellFormed p (hvalid p hp)
  have hpat : routePattern groups t = "^" ++ String.mk (patternText pieces) ++ "/?$" := by
    have h := expandPlaceholders_pieces pieces [] hwf
    simp only [List.append_nil, expandPlaceholders] at h
    rw [routePattern, htext, h]
  refine ⟨{ regex := re, handlers := GoMap.set [] m (some f) }, ?_, ?_, hnames, ?_⟩
  · rw [bindRoute_eq lib { routes := [], groups := groups } m t (some f) re
      (by rw [hpat]; exact hc)]
    simp [bindExisting, Route.BindHandler, Route.handler, GoMap.get?]
  · exact lib.source_eq _ _ hc
  · intro method path hok
    exact Route.match_values_segments _ method path hsem hok

/-- The template `/{profileID}` under the group `/user/profile`, as in
`Test_GroupRoute`: the route has the pattern
`^/user/profile/(?P<profileID>[^/#?]+)/?$`, it matches `/user/profile/1` with
`profileID` being `1`, and every value it captures is a segment. -/
theorem placeholder_template_params_witness :
    (∀ p ∈ ("/user/profile/".toList.map Piece.char)
        ++ [Piece.placeholder "profileID".toList], p.valid = true) ∧
      (String.join ["/user/profile"] ++ "/{profileID}").toList
        = templateText (("/user/profile/".toList.map Piece.char)
            ++ [Piece.placeholder "profileID".toList]) ∧
      (match ({ routes := [], groups := ["/user/profile"] } : Router Nat).BindRoute
          placeholderLib "get" "/{profileID}" (some 2) with
        | .ok r => r.MatchRoute "get" "/user/profile/1"
        | .error _ => (none, none)).2 = some [("profileID", "1")] ∧
      ∃ rt : Route Nat,
        ({ routes := [], groups := ["/user/profile"] } : Router Nat).BindRoute
            placeholderLib "get" "/{profileID}" (some 2)
          = .ok { routes := [rt], groups := ["/user/profile"] } ∧
        rt.regex.source = "^/user/profile/(?P<profileID>[^/#?]+)/?$" ∧
        rt.regex.subexpNames = ["", "profileID"] ∧
        ∀ method path, (rt.Match method path).1 = true →
          ∀ params, (rt.Match method path).2 = some params →
            ∀ name value, params.get? name = some value →
              value ≠ "" ∧ '/' ∉ value.toList ∧ '#' ∉ value.toList ∧
                '?' ∉ value.toList :=
  ⟨by decide, by decide, by decide,
    placeholder_template_params placeholderLib placeholderLib_placeholderPatterns
      ["/user/profile"] "/{profileID}" "get" 2
      (("/user/profile/".toList.map Piece.char) ++ [Piece.placeholder "profileID".toList])
      (by decide) (by decide)⟩

end Router

end GoServer
